import Mathlib

/-!
# Verification of the `prompt` terminal line-editor library

A shallow embedding, in Lean 4, of the Go sources of the `prompt` repository
(key decoder, visual encoding codec, screen model, kill ring, history, and the
prompt driver's dispatch loop), together with proofs settling the claims about
the library's behaviour.

Conventions used throughout:

* Go byte strings are modelled as `List Nat` (each element `< 256`);
  Go rune slices (`[]rune`) are also `List Nat` (each element a Unicode
  code point).  Go `rune`/`int` values that can be negative are `Int`.
* Bit operations on in-range operands are written with their exact
  arithmetic equivalents where this eases reasoning
  (`x &&& 0x3f = x % 64`, `x <<< 6 = x * 64`, and `a ||| b = a + b`
  whenever the set bits of `a` and `b` are disjoint); each such site is
  noted with a comment.
* Go map lookups are modelled with association-list lookups; iteration
  order is never observable through the functions modelled here.
-/

namespace GoPrompt

/-! ## Key constants (src/input.go)

The Go `const` block uses `iota`; the values below are the resulting
concrete constants (`keyUnknown = 0xd800 + 21` because `iota` is 21 at
that line of the block). -/

def keyCtrlG : Nat := 7
def keyEnter : Nat := 13
def keyEscape : Nat := 27
def keyBackspace : Nat := 127
def keyUnknown : Nat := 0xd800 + 21
def keyUp : Nat := 0xd800 + 22
def keyDown : Nat := 0xd800 + 23
def keyLeft : Nat := 0xd800 + 24
def keyRight : Nat := 0xd800 + 25
def keyHome : Nat := 0xd800 + 26
def keyEnd : Nat := 0xd800 + 27
def keyPageUp : Nat := 0xd800 + 28
def keyPageDown : Nat := 0xd800 + 29
def keyDelete : Nat := 0xd800 + 30
def keyPasteStart : Nat := 0xd800 + 31
def keyPasteEnd : Nat := 0xd800 + 32
def keyCtrl : Nat := 0x20000000
def keyAlt : Nat := 0x40000000

/-- `utf8.RuneError` (U+FFFD), used by the decoder as the "need more input"
marker. -/
def runeError : Nat := 0xFFFD

/-! ## UTF-8 (Go `unicode/utf8`)

Faithful translation of Go's `first` table and accept ranges.  A first
byte classifies as: ASCII (`< 0x80`, size 1), invalid (`0x80..0xC1` and
`0xF5..0xFF`, treated as size 1), or the leading byte of a 2/3/4-byte
encoding with a restricted range for the second byte. -/

/-- Size in bytes of the encoding announced by a first byte (the low bits
of Go's `first` table entry); 1 for ASCII and for invalid bytes. -/
def utf8Size (b : Nat) : Nat :=
  if b < 0x80 then 1
  else if b < 0xC2 then 1
  else if b ≤ 0xDF then 2
  else if b ≤ 0xEF then 3
  else if b ≤ 0xF4 then 4
  else 1

/-- Whether Go's `first` table marks the byte `xx` (invalid start of an
encoding). -/
def utf8InvalidStart (b : Nat) : Prop :=
  (0x80 ≤ b ∧ b < 0xC2) ∨ 0xF4 < b

instance (b : Nat) : Decidable (utf8InvalidStart b) := by
  unfold utf8InvalidStart; infer_instance

/-- Lower bound of the accept range for the second byte. -/
def acceptLo (b : Nat) : Nat :=
  if b = 0xE0 then 0xA0 else if b = 0xF0 then 0x90 else 0x80

/-- Upper bound of the accept range for the second byte. -/
def acceptHi (b : Nat) : Nat :=
  if b = 0xED then 0x9F else if b = 0xF4 then 0x8F else 0xBF

/-- Go `utf8.FullRune`: whether the buffer begins with a full UTF-8
encoding of a rune (an invalid encoding counts as full, since decoding
it yields `RuneError` of size 1). -/
def fullRune : List Nat → Bool
  | [] => false
  | b :: rest =>
    if (b :: rest).length ≥ utf8Size b then true
    else
      match rest with
      | [] => false
      | b1 :: rest2 =>
        if b1 < acceptLo b ∨ acceptHi b < b1 then true
        else
          match rest2 with
          | [] => false
          | b2 :: _ => if b2 < 0x80 ∨ 0xBF < b2 then true else false

/-- Go `utf8.DecodeRune` / `utf8.DecodeRuneInString`: returns the decoded
rune and its size in bytes; `(RuneError, 0)` on an empty buffer and
`(RuneError, 1)` on an invalid or incomplete encoding.  The byte-mask
arithmetic mirrors Go exactly: `b &&& 0x1F = b % 32`, `b &&& 0x0F = b % 16`,
`b &&& 0x07 = b % 8`, `b &&& 0x3F = b % 64`, and the shifted fields are
disjoint so `|||` is `+`. -/
def decodeRune : List Nat → Nat × Nat
  | [] => (runeError, 0)
  | b :: rest =>
    if b < 0x80 then (b, 1)
    else if utf8InvalidStart b then (runeError, 1)
    else if (b :: rest).length < utf8Size b then (runeError, 1)
    else
      match rest with
      | [] => (runeError, 1)
      | b1 :: rest1 =>
        if b1 < acceptLo b ∨ acceptHi b < b1 then (runeError, 1)
        else if utf8Size b = 2 then ((b % 32) * 64 + b1 % 64, 2)
        else
          match rest1 with
          | [] => (runeError, 1)
          | b2 :: rest2 =>
            if b2 < 0x80 ∨ 0xBF < b2 then (runeError, 1)
            else if utf8Size b = 3 then
              ((b % 16) * 4096 + (b1 % 64) * 64 + b2 % 64, 3)
            else
              match rest2 with
              | [] => (runeError, 1)
              | b3 :: _ =>
                if b3 < 0x80 ∨ 0xBF < b3 then (runeError, 1)
                else ((b % 8) * 262144 + (b1 % 64) * 4096 + (b2 % 64) * 64 + b3 % 64, 4)

/-- A Unicode scalar value: a code point that is not a UTF-16 surrogate
and is at most `U+10FFFF` (Go `utf8.ValidRune`). -/
def ValidScalar (r : Nat) : Prop :=
  r < 0xD800 ∨ (0xDFFF < r ∧ r < 0x110000)

instance (r : Nat) : Decidable (ValidScalar r) := by
  unfold ValidScalar; infer_instance

/-- Go `utf8.EncodeRune` (as used by `strings.Builder.WriteRune`):
the UTF-8 encoding of a rune; surrogates and out-of-range values encode
as `RuneError`.  Field arithmetic is the exact arithmetic form of Go's
shift/mask code (`0xC0 ||| r >>> 6 = 0xC0 + r / 64`, etc.). -/
def utf8EncodeRune (r : Nat) : List Nat :=
  if r < 0x80 then [r]
  else if r < 0x800 then [0xC0 + r / 64, 0x80 + r % 64]
  else if ¬ ValidScalar r then [0xEF, 0xBF, 0xBD]
  else if r < 0x10000 then [0xE0 + r / 4096, 0x80 + (r / 64) % 64, 0x80 + r % 64]
  else [0xF0 + r / 262144, 0x80 + (r / 4096) % 64, 0x80 + (r / 64) % 64, 0x80 + r % 64]

/-- Conversion of a rune slice to a Go string's bytes (`string(runes)`). -/
def utf8Str (rs : List Nat) : List Nat :=
  (rs.map utf8EncodeRune).foldr (· ++ ·) []

theorem utf8Str_cons (r : Nat) (rs : List Nat) :
    utf8Str (r :: rs) = utf8EncodeRune r ++ utf8Str rs := rfl

/-- UTF-8 decoding round-trips on encodings of valid scalars, with any
trailing bytes left untouched. -/
theorem decodeRune_encode (r : Nat) (h : ValidScalar r) (tail : List Nat) :
    decodeRune (utf8EncodeRune r ++ tail) = (r, (utf8EncodeRune r).length) := by
  have hv := h
  unfold ValidScalar at hv
  unfold utf8EncodeRune
  by_cases h1 : r < 0x80
  · simp only [if_pos h1, List.cons_append, List.nil_append, decodeRune, if_pos h1,
      List.length_cons, List.length_nil]
  · by_cases h2 : r < 0x800
    · have hsz : utf8Size (0xC0 + r / 64) = 2 := by
        unfold utf8Size; split_ifs <;> omega
      have hinv : ¬ utf8InvalidStart (0xC0 + r / 64) := by
        unfold utf8InvalidStart; omega
      have hok : ¬ ((0x80 + r % 64) < acceptLo (0xC0 + r / 64) ∨
          acceptHi (0xC0 + r / 64) < (0x80 + r % 64)) := by
        unfold acceptLo acceptHi; split_ifs <;> omega
      simp only [if_neg h1, if_pos h2, List.cons_append, List.nil_append, decodeRune,
        List.length_cons, List.length_nil]
      rw [hsz]
      rw [if_neg (by omega : ¬ (0xC0 + r / 64 < 0x80)), if_neg hinv,
        if_neg (by omega : ¬ (tail.length + 1 + 1 < 2)), if_neg hok, if_pos rfl]
      simp only [Prod.mk.injEq, and_true]
      omega
    · by_cases h3 : r < 0x10000
      · have hsz : utf8Size (0xE0 + r / 4096) = 3 := by
          unfold utf8Size; split_ifs <;> omega
        have hinv : ¬ utf8InvalidStart (0xE0 + r / 4096) := by
          unfold utf8InvalidStart; omega
        have hlo3 : acceptLo (0xE0 + r / 4096) = if r / 4096 = 0 then 0xA0 else 0x80 := by
          unfold acceptLo
          by_cases hq : r / 4096 = 0
          · rw [if_pos (by omega), if_pos hq]
          · rw [if_neg (by omega), if_neg (by omega), if_neg hq]
        have hhi3 : acceptHi (0xE0 + r / 4096) = if r / 4096 = 13 then 0x9F else 0xBF := by
          unfold acceptHi
          by_cases hq : r / 4096 = 13
          · rw [if_pos (by omega), if_pos hq]
          · rw [if_neg (by omega), if_neg (by omega), if_neg hq]
        have hok1 : ¬ ((0x80 + (r / 64) % 64) < acceptLo (0xE0 + r / 4096) ∨
            acceptHi (0xE0 + r / 4096) < (0x80 + (r / 64) % 64)) := by
          rw [hlo3, hhi3]
          rcases hv with hv | hv
          · split_ifs <;> omega
          · split_ifs <;> omega
        simp only [if_neg h1, if_neg h2, if_neg (not_not_intro h), if_pos h3,
          List.cons_append, List.nil_append, decodeRune,
          List.length_cons, List.length_nil]
        rw [hsz]
        rw [if_neg (by omega : ¬ (0xE0 + r / 4096 < 0x80)), if_neg hinv,
          if_neg (by omega : ¬ (tail.length + 1 + 1 + 1 < 3)), if_neg hok1,
          if_neg (by omega : ¬ ((3:Nat) = 2)),
          if_neg (by omega : ¬ ((0x80 + r % 64) < 0x80 ∨ 0xBF < (0x80 + r % 64))),
          if_pos rfl]
        simp only [Prod.mk.injEq, and_true]
        omega
      · have hup : r < 0x110000 := by
          rcases hv with hv | hv
          · omega
          · exact hv.2
        have hsz : utf8Size (0xF0 + r / 262144) = 4 := by
          unfold utf8Size; split_ifs <;> omega
        have hinv : ¬ utf8InvalidStart (0xF0 + r / 262144) := by
          unfold utf8InvalidStart; omega
        have hlo4 : acceptLo (0xF0 + r / 262144) = if r / 262144 = 0 then 0x90 else 0x80 := by
          unfold acceptLo
          by_cases hq : r / 262144 = 0
          · rw [if_neg (by omega), if_pos (by omega), if_pos hq]
          · rw [if_neg (by omega), if_neg (by omega), if_neg hq]
        have hhi4 : acceptHi (0xF0 + r / 262144) = if r / 262144 = 4 then 0x8F else 0xBF := by
          unfold acceptHi
          by_cases hq : r / 262144 = 4
          · rw [if_neg (by omega), if_pos (by omega), if_pos hq]
          · rw [if_neg (by omega), if_neg (by omega), if_neg hq]
        have hok1 : ¬ ((0x80 + (r / 4096) % 64) < acceptLo (0xF0 + r / 262144) ∨
            acceptHi (0xF0 + r / 262144) < (0x80 + (r / 4096) % 64)) := by
          rw [hlo4, hhi4]; split_ifs <;> omega
        simp only [if_neg h1, if_neg h2, if_neg (not_not_intro h), if_neg h3,
          List.cons_append, List.nil_append, decodeRune,
          List.length_cons, List.length_nil]
        rw [hsz]
        rw [if_neg (by omega : ¬ (0xF0 + r / 262144 < 0x80)), if_neg hinv,
          if_neg (by omega : ¬ (tail.length + 1 + 1 + 1 + 1 < 4)), if_neg hok1,
          if_neg (by omega : ¬ ((4:Nat) = 2)),
          if_neg (by omega : ¬ ((0x80 + (r / 64) % 64) < 0x80 ∨ 0xBF < (0x80 + (r / 64) % 64))),
          if_neg (by omega : ¬ ((4:Nat) = 3)),
          if_neg (by omega : ¬ ((0x80 + r % 64) < 0x80 ∨ 0xBF < (0x80 + r % 64)))]
        simp only [Prod.mk.injEq, and_true]
        omega

/-- The size returned by `decodeRune` on a non-empty buffer is at least 1. -/
theorem decodeRune_size_pos (b : Nat) (rest : List Nat) :
    1 ≤ (decodeRune (b :: rest)).2 := by
  rcases rest with _ | ⟨b1, rest1⟩
  · simp only [decodeRune]; split_ifs <;> simp
  · rcases rest1 with _ | ⟨b2, rest2⟩
    · simp only [decodeRune]; split_ifs <;> simp
    · rcases rest2 with _ | ⟨b3, rest3⟩
      · simp only [decodeRune]; split_ifs <;> simp
      · simp only [decodeRune]; split_ifs <;> simp

/-! ## Key decoder (src/input.go) -/

/-- The leading-ESC stripping loop at the top of `parseKey`: as long as the
buffer has at least 2 bytes and starts with an escape that is not the
beginning of `ESC O …` or `ESC [ …`, drop the escape and set the Alt
modifier (`'O' = 79`, `'[' = 91`). -/
def stripEsc : List Nat → Nat × List Nat
  | b0 :: b1 :: rest =>
    if b0 = keyEscape ∧ b1 ≠ 79 ∧ b1 ≠ 91 then
      let r := stripEsc (b1 :: rest)
      (Nat.lor keyAlt r.1, r.2)
    else (0, b0 :: b1 :: rest)
  | l => (0, l)

/-- The `seqTrie` of src/input.go: `key` is the byte labelling the edge
from the parent, `value` the key code stored at a leaf. -/
inductive SeqTrie where
  | node (key : Nat) (value : Nat) (children : List SeqTrie)

instance : Inhabited SeqTrie := ⟨.node 0 0 []⟩

def SeqTrie.key : SeqTrie → Nat
  | .node k _ _ => k

def SeqTrie.value : SeqTrie → Nat
  | .node _ v _ => v

def SeqTrie.children : SeqTrie → List SeqTrie
  | .node _ _ cs => cs

/-- `seqTrie.findChild`. -/
def SeqTrie.findChild (t : SeqTrie) (b : Nat) : Option SeqTrie :=
  t.children.find? (fun c => c.key == b)

/-- `seqTrie.add`: walk the bytes of the sequence, appending a fresh child
whenever one is missing, and store the value at the final node. -/
def SeqTrie.add : SeqTrie → List Nat → Nat → SeqTrie
  | .node k _ cs, [], value => .node k value cs
  | .node k v cs, b :: rest, value =>
    match cs.findIdx? (fun c => c.key == b) with
    | some i => .node k v (cs.set i ((cs.getD i default).add rest value))
    | none => .node k v (cs ++ [SeqTrie.add (.node b 0 []) rest value])

/-- The `supportedSeqs` table of src/input.go, in source order.  (The Go
code stores it as a map; only per-sequence insertion and the resulting
trie are observable, and `add`/`match` results do not depend on the
insertion order since sibling keys are distinct.) -/
def supportedSeqs : List (List Nat × Nat) :=
  [ ([27, 91, 51, 126], keyDelete),                       -- ESC [ 3 ~
    ([27, 79, 66], keyDown),                              -- ESC O B
    ([27, 91, 66], keyDown),                              -- ESC [ B
    ([27, 79, 98], Nat.lor keyDown keyCtrl),              -- ESC O b
    ([27, 91, 49, 59, 53, 66], Nat.lor keyDown keyCtrl),  -- ESC [ 1 ; 5 B
    ([27, 91, 49, 59, 51, 66], Nat.lor keyDown keyAlt),   -- ESC [ 1 ; 3 B
    ([27, 91, 49, 59, 57, 66], Nat.lor keyDown keyAlt),   -- ESC [ 1 ; 9 B
    ([27, 79, 70], keyEnd),                               -- ESC O F
    ([27, 91, 70], keyEnd),                               -- ESC [ F
    ([27, 91, 52, 126], keyEnd),                          -- ESC [ 4 ~
    ([27, 91, 56, 126], keyEnd),                          -- ESC [ 8 ~
    ([27, 79, 72], keyHome),                              -- ESC O H
    ([27, 91, 72], keyHome),                              -- ESC [ H
    ([27, 91, 49, 126], keyHome),                         -- ESC [ 1 ~
    ([27, 91, 55, 126], keyHome),                         -- ESC [ 7 ~
    ([27, 79, 68], keyLeft),                              -- ESC O D
    ([27, 91, 68], keyLeft),                              -- ESC [ D
    ([27, 79, 100], Nat.lor keyLeft keyCtrl),             -- ESC O d
    ([27, 91, 49, 59, 53, 68], Nat.lor keyLeft keyCtrl),  -- ESC [ 1 ; 5 D
    ([27, 91, 49, 59, 51, 68], Nat.lor keyLeft keyAlt),   -- ESC [ 1 ; 3 D
    ([27, 91, 49, 59, 57, 68], Nat.lor keyLeft keyAlt),   -- ESC [ 1 ; 9 D
    ([27, 91, 54, 126], keyPageDown),                     -- ESC [ 6 ~
    ([27, 91, 53, 126], keyPageUp),                       -- ESC [ 5 ~
    ([27, 91, 50, 48, 48, 126], keyPasteStart),           -- ESC [ 2 0 0 ~
    ([27, 91, 50, 48, 49, 126], keyPasteEnd),             -- ESC [ 2 0 1 ~
    ([27, 79, 67], keyRight),                             -- ESC O C
    ([27, 91, 67], keyRight),                             -- ESC [ C
    ([27, 79, 99], Nat.lor keyRight keyCtrl),             -- ESC O c
    ([27, 91, 49, 59, 53, 67], Nat.lor keyRight keyCtrl), -- ESC [ 1 ; 5 C
    ([27, 91, 49, 59, 51, 67], Nat.lor keyRight keyAlt),  -- ESC [ 1 ; 3 C
    ([27, 91, 49, 59, 57, 67], Nat.lor keyRight keyAlt),  -- ESC [ 1 ; 9 C
    ([27, 79, 65], keyUp),                                -- ESC O A
    ([27, 91, 65], keyUp),                                -- ESC [ A
    ([27, 79, 97], Nat.lor keyUp keyCtrl),                -- ESC O a
    ([27, 91, 49, 59, 53, 65], Nat.lor keyUp keyCtrl),    -- ESC [ 1 ; 5 A
    ([27, 91, 49, 59, 51, 65], Nat.lor keyUp keyAlt),     -- ESC [ 1 ; 3 A
    ([27, 91, 49, 59, 57, 65], Nat.lor keyUp keyAlt) ]    -- ESC [ 1 ; 9 A

/-- `seqMatcher`: the trie built from `supportedSeqs`. -/
def seqMatcher : SeqTrie :=
  supportedSeqs.foldl (fun t p => t.add p.1 p.2) (.node 0 0 [])

/-- A byte in `[a-zA-Z~]`, the conventional final byte of an escape
sequence. -/
def isSeqTerminator (b : Nat) : Bool :=
  (97 ≤ b && b ≤ 122) || (65 ≤ b && b ≤ 90) || b == 126

/-- `seqTrie.match`: walk the trie byte by byte.  On reaching a leaf
return its value with the modifiers (pastes ignore modifiers); when a
byte has no child, scan from the mismatched byte for a terminator and,
if one occurs anywhere there, return `keyUnknown` and the bytes after
the *mismatched* byte (Go returns `buf[i+1:]` with `i` the mismatch
index); otherwise, and when the buffer runs out mid-sequence, return
`RuneError` with the original buffer. -/
def SeqTrie.matchGo : SeqTrie → List Nat → List Nat → Nat → Nat × List Nat
  | _, [], origBuf, _ => (runeError, origBuf)
  | t, b :: rest, origBuf, mods =>
    match t.findChild b with
    | none =>
      if (b :: rest).any isSeqTerminator then (keyUnknown, rest)
      else (runeError, origBuf)
    | some c =>
      if c.children.isEmpty then
        (Nat.lor c.value
          (if c.value = keyPasteStart ∨ c.value = keyPasteEnd then 0 else mods), rest)
      else c.matchGo rest origBuf mods

/-- `parseKey` (src/input.go): strip Alt-setting escapes, then decode one
UTF-8 rune, or match an escape sequence against the trie. -/
def parseKey (buf : List Nat) : Nat × List Nat :=
  match stripEsc buf with
  | (_, []) => (runeError, buf)
  | (mods, b :: rest) =>
    if b ≠ keyEscape then
      if fullRune (b :: rest) = false then (runeError, buf)
      else
        (Nat.lor (decodeRune (b :: rest)).1 mods,
          (b :: rest).drop (decodeRune (b :: rest)).2)
    else seqMatcher.matchGo (b :: rest) buf mods

/-! ### Trie facts

`walkTrie` follows a byte list through the trie, stopping (with `none`)
at a missing child or a leaf; `matchGo` factors through it.  The facts
about the concrete trie needed by the claims are checked by evaluation
over the (finite) strict prefixes of the recognised sequences. -/

def walkTrie : SeqTrie → List Nat → Option SeqTrie
  | t, [] => some t
  | t, b :: rest =>
    match t.findChild b with
    | none => none
    | some c => if c.children.isEmpty then none else walkTrie c rest

theorem matchGo_append (p : List Nat) : ∀ t t' : SeqTrie, walkTrie t p = some t' →
    ∀ (buf orig : List Nat) (mods : Nat),
      t.matchGo (p ++ buf) orig mods = t'.matchGo buf orig mods := by
  induction p with
  | nil =>
    intro t t' h buf orig mods
    simp only [walkTrie, Option.some.injEq] at h
    subst h; rfl
  | cons b p ih =>
    intro t t' h buf orig mods
    simp only [walkTrie] at h
    cases hf : t.findChild b with
    | none => simp only [hf] at h; exact Option.noConfusion h
    | some c =>
      simp only [hf] at h
      by_cases hc : c.children.isEmpty
      · rw [if_pos hc] at h; exact Option.noConfusion h
      · rw [if_neg hc] at h
        simp only [List.cons_append, SeqTrie.matchGo, hf, if_neg hc]
        exact ih c t' h buf orig mods

/-- For every strict prefix of a recognised sequence, the trie walk ends
at an inner node, and every child edge out of that node extends the
prefix to a longer prefix of some recognised sequence.  Checked by
evaluation. -/
def trieWalkFacts : Bool :=
  supportedSeqs.all fun p =>
    (List.range p.1.length).all fun k =>
      match walkTrie seqMatcher (p.1.take k) with
      | some t =>
        !t.children.isEmpty &&
          t.children.all fun c =>
            supportedSeqs.any fun q => p.1.take k ++ [c.key] == q.1.take (k + 1)
      | none => false

set_option maxHeartbeats 1000000 in
theorem trieWalkFacts_true : trieWalkFacts = true := by decide

/-- Every recognised sequence starts with `ESC O` or `ESC [`. -/
def seqShapeFacts : Bool :=
  supportedSeqs.all fun p =>
    match p.1 with
    | 27 :: x :: _ => x == 79 || x == 91
    | _ => false

theorem seqShapeFacts_true : seqShapeFacts = true := by decide

theorem walk_strictPre {s : List Nat} {v : Nat} (hm : (s, v) ∈ supportedSeqs)
    {k : Nat} (hk : k < s.length) :
    ∃ t', walkTrie seqMatcher (s.take k) = some t' ∧ t'.children ≠ [] ∧
      ∀ c ∈ t'.children, ∃ q ∈ supportedSeqs, s.take k ++ [c.key] = q.1.take (k + 1) := by
  have hall := trieWalkFacts_true
  unfold trieWalkFacts at hall
  rw [List.all_eq_true] at hall
  have h1 := hall (s, v) hm
  rw [List.all_eq_true] at h1
  have h2 := h1 k (List.mem_range.mpr hk)
  cases hw : walkTrie seqMatcher (s.take k) with
  | none => rw [hw] at h2; exact absurd h2 (by simp)
  | some t' =>
    rw [hw] at h2
    simp only [Bool.and_eq_true, List.all_eq_true] at h2
    refine ⟨t', rfl, ?_, ?_⟩
    · intro hemp
      rw [hemp] at h2
      exact absurd h2.1 (by simp)
    · intro c hc
      have h3 := h2.2 c hc
      rw [List.any_eq_true] at h3
      obtain ⟨q, hq, he⟩ := h3
      exact ⟨q, hq, by simpa using he⟩

theorem seqShape {s : List Nat} {v : Nat} (hm : (s, v) ∈ supportedSeqs) :
    ∃ x t, s = 27 :: x :: t ∧ (x = 79 ∨ x = 91) := by
  have hall := seqShapeFacts_true
  unfold seqShapeFacts at hall
  rw [List.all_eq_true] at hall
  have h1 := hall (s, v) hm
  simp only at h1
  split at h1
  · rename_i x t
    exact ⟨x, t, rfl, by simpa using h1⟩
  · exact absurd h1 (by simp)

/-! ### Behaviour of the stripping loop -/

/-- A buffer whose head is not an escape is left unchanged by the
stripping loop. -/
theorem stripEsc_stable_nonEsc (c : Nat) (cs : List Nat) (hc : c ≠ keyEscape) :
    stripEsc (c :: cs) = (0, c :: cs) := by
  cases cs with
  | nil => rfl
  | cons d t =>
    simp only [stripEsc]
    rw [if_neg (fun hx => hc hx.1)]

/-- A buffer starting with `ESC O` or `ESC [` is left unchanged by the
stripping loop. -/
theorem stripEsc_stable_seq (x : Nat) (t : List Nat) (hx : x = 79 ∨ x = 91) :
    stripEsc (keyEscape :: x :: t) = (0, keyEscape :: x :: t) := by
  simp only [stripEsc]
  rw [if_neg (by rintro ⟨-, h79, h91⟩; rcases hx with h | h; exacts [h79 h, h91 h])]

/-- Prepending Alt-setting escapes to a strip-stable buffer: the loop
consumes exactly those escapes.  (A lone trailing `ESC` also absorbs the
run, since `stripEsc [ESC] = (0, [ESC])`.) -/
theorem stripEsc_replicate (n c : Nat) (cs : List Nat)
    (h : stripEsc (c :: cs) = (0, c :: cs))
    (h2 : n = 0 ∨ (c ≠ 79 ∧ c ≠ 91)) :
    ∃ m, stripEsc (List.replicate n keyEscape ++ c :: cs) = (m, c :: cs) := by
  induction n with
  | zero => exact ⟨0, by simpa using h⟩
  | succ n ih =>
    have hcc : c ≠ 79 ∧ c ≠ 91 := by
      rcases h2 with h0 | hcc
      · exact absurd h0 (by omega)
      · exact hcc
    obtain ⟨m, hm⟩ := ih (Or.inr hcc)
    refine ⟨Nat.lor keyAlt m, ?_⟩
    rw [List.replicate_succ, List.cons_append]
    cases n with
    | zero =>
      simp only [List.replicate, List.nil_append] at hm ⊢
      simp only [stripEsc]
      rw [if_pos ⟨trivial, hcc.1, hcc.2⟩, hm]
    | succ n' =>
      rw [List.replicate_succ, List.cons_append]
      simp only [stripEsc]
      rw [if_pos ⟨trivial, by decide, by decide⟩]
      rw [show keyEscape :: (List.replicate n' keyEscape ++ c :: cs) =
            List.replicate (n' + 1) keyEscape ++ c :: cs by
          rw [List.replicate_succ, List.cons_append], hm]

/-- Reduction of `parseKey` once the result of the stripping loop is
known. -/
theorem parseKey_eq (buf : List Nat) (m b : Nat) (rest : List Nat)
    (hs : stripEsc buf = (m, b :: rest)) :
    parseKey buf =
      if b ≠ keyEscape then
        if fullRune (b :: rest) = false then (runeError, buf)
        else
          (Nat.lor (decodeRune (b :: rest)).1 m,
            (b :: rest).drop (decodeRune (b :: rest)).2)
      else seqMatcher.matchGo (b :: rest) buf m := by
  unfold parseKey
  rw [hs]

/-! ### C3 and C4 -/

/-- **C3**: for every input buffer holding an incomplete UTF-8 scalar or
a strict (non-empty, proper) prefix of a recognised escape sequence —
after any leading run of Alt-setting escape bytes — `parseKey` returns
the replacement marker `utf8.RuneError` together with the original,
unmodified buffer, consuming nothing. -/
theorem parseKey_incomplete (n : Nat) (core : List Nat)
    (h : (∃ c cs, core = c :: cs ∧ c ≠ keyEscape ∧ fullRune core = false ∧
            (n = 0 ∨ (c ≠ 79 ∧ c ≠ 91)))
       ∨ (∃ s v k, (s, v) ∈ supportedSeqs ∧ k < s.length ∧ 0 < k ∧ core = s.take k)) :
    parseKey (List.replicate n keyEscape ++ core) =
      (runeError, List.replicate n keyEscape ++ core) := by
  rcases h with ⟨c, cs, hcore, hc, hfull, hn⟩ | ⟨s, v, k, hm, hk, hk0, hcore⟩
  · subst hcore
    obtain ⟨m, hm⟩ := stripEsc_replicate n c cs (stripEsc_stable_nonEsc c cs hc) hn
    rw [parseKey_eq _ m c cs hm, if_pos hc, if_pos hfull]
  · subst hcore
    obtain ⟨x, t, hs, hx⟩ := seqShape hm
    subst hs
    obtain ⟨k', rfl⟩ : ∃ k', k = k' + 1 := ⟨k - 1, by omega⟩
    have htake : (27 :: x :: t).take (k' + 1) = 27 :: (x :: t).take k' := rfl
    have hstable : stripEsc (keyEscape :: (x :: t).take k') =
        (0, keyEscape :: (x :: t).take k') := by
      cases k' with
      | zero => rfl
      | succ k'' => exact stripEsc_stable_seq x (t.take k'') hx
    obtain ⟨m, hm2⟩ :=
      stripEsc_replicate n keyEscape ((x :: t).take k') hstable
        (Or.inr ⟨by decide, by decide⟩)
    have hpk := parseKey_eq (List.replicate n keyEscape ++ (27 :: x :: t).take (k' + 1))
      m keyEscape ((x :: t).take k') (by rw [htake]; exact hm2)
    rw [hpk, if_neg (fun hne => hne rfl)]
    obtain ⟨t', hw, -, -⟩ := walk_strictPre hm hk
    have hma := matchGo_append ((27 :: x :: t).take (k' + 1)) seqMatcher t' hw []
      (List.replicate n keyEscape ++ (27 :: x :: t).take (k' + 1)) m
    rw [List.append_nil, htake] at hma
    exact hma

/-- Witness for C3 at concrete inputs: `ESC 0xC3` (an Alt-setting escape
followed by an incomplete 2-byte UTF-8 encoding) and the escape-sequence
prefix `ESC [ 1 ;`. -/
theorem parseKey_incomplete_witness :
    parseKey [27, 0xC3] = (runeError, [27, 0xC3]) ∧
      parseKey [27, 91, 49, 59] = (runeError, [27, 91, 49, 59]) := by
  constructor
  · exact parseKey_incomplete 1 [0xC3]
      (Or.inl ⟨0xC3, [], rfl, by decide, by decide, Or.inr ⟨by decide, by decide⟩⟩)
  · exact parseKey_incomplete 0 [27, 91, 49, 59]
      (Or.inr ⟨[27, 91, 49, 59, 53, 66], Nat.lor keyDown keyCtrl, 4, by decide,
        by decide, by decide, by decide⟩)

/-- Counterexample to **C4** as stated: on `ESC [ 1 ; 2 B` the trie
mismatch is at `2` and the first `[a-zA-Z~]` terminator is the later
`B`; the claim says the bytes up through the terminator are consumed
(tail `[]`), but the code consumes only up through the mismatched byte
and leaves the terminator in the returned tail. -/
theorem parseKey_unknown_counterexample :
    parseKey [27, 91, 49, 59, 50, 66] = (keyUnknown, [66]) ∧
      parseKey [27, 91, 49, 59, 50, 66] ≠ (keyUnknown, []) := by
  constructor
  · decide
  · decide

/-- **C4** (amended): for every buffer that begins with a matched strict
prefix of a recognised escape sequence followed by a mismatching byte
`b` (`pre ++ [b]` extends no recognised sequence), if a terminator in
`[a-zA-Z~]` occurs at or after the mismatch, `parseKey` returns the
Unknown key and consumes exactly the bytes up through the *mismatched*
byte: the returned tail is the remainder after the mismatched byte (the
terminator itself is consumed only when it is the mismatched byte). -/
theorem parseKey_unknownSeq (s : List Nat) (v k b : Nat) (rest : List Nat)
    (hm : (s, v) ∈ supportedSeqs) (hk : k < s.length) (hk2 : 2 ≤ k)
    (hmis : ∀ q ∈ supportedSeqs, s.take k ++ [b] ≠ q.1.take (k + 1))
    (hterm : (b :: rest).any isSeqTerminator = true) :
    parseKey (s.take k ++ b :: rest) = (keyUnknown, rest) := by
  obtain ⟨x, t, hs, hx⟩ := seqShape hm
  subst hs
  obtain ⟨k', rfl⟩ : ∃ k', k = k' + 2 := ⟨k - 2, by omega⟩
  have htake : (27 :: x :: t).take (k' + 2) = 27 :: x :: t.take k' := rfl
  have hbuf : (27 :: x :: t).take (k' + 2) ++ b :: rest =
      keyEscape :: x :: (t.take k' ++ b :: rest) := by
    rw [htake]; rfl
  have hstable := stripEsc_stable_seq x (t.take k' ++ b :: rest) hx
  have hpk := parseKey_eq ((27 :: x :: t).take (k' + 2) ++ b :: rest)
    0 keyEscape (x :: (t.take k' ++ b :: rest)) (by rw [hbuf]; exact hstable)
  rw [hpk, if_neg (fun hne => hne rfl)]
  obtain ⟨t', hw, -, hclosed⟩ := walk_strictPre hm hk
  rw [← hbuf]
  rw [matchGo_append ((27 :: x :: t).take (k' + 2)) seqMatcher t' hw (b :: rest)
    ((27 :: x :: t).take (k' + 2) ++ b :: rest) 0]
  cases hfc : t'.findChild b with
  | some c =>
    exfalso
    have hkey : c.key = b := by simpa using List.find?_some hfc
    have hcmem : c ∈ t'.children := List.mem_of_find?_eq_some hfc
    obtain ⟨q, hq, heq⟩ := hclosed c hcmem
    rw [hkey] at heq
    exact hmis q hq heq
  | none =>
    simp only [SeqTrie.matchGo, hfc]
    rw [if_pos hterm]

/-- Witness for the amended C4 at a concrete input: `ESC [ 1 ;` is a
strict prefix of `ESC [ 1 ; 5 B`, the byte `2` extends no recognised
sequence, and the terminator `B` follows it. -/
theorem parseKey_unknownSeq_witness :
    parseKey [27, 91, 49, 59, 50, 66] = (keyUnknown, [66]) :=
  parseKey_unknownSeq [27, 91, 49, 59, 53, 66] (Nat.lor keyDown keyCtrl) 4 50 [66]
    (by decide) (by decide) (by decide) (by decide) (by decide)

/-! ## Visual encoding codec (src/vis.go)

`encodeVis`/`decodeVis` implement the libedit "vis" scheme used in the
history file.  The Go `unicode.IsSpace`/`unicode.IsControl` classifiers
are embedded exactly (Latin-1 property table plus the above-Latin-1
White_Space ranges; note Go's Latin-1 table marks the soft hyphen
`U+00AD` as a control).  The byte-consuming case analysis of Go's
single-function `decodeVis` loop and of `strconv.UnquoteChar` is split
into one Lean definition per nesting level, preserving the control flow
exactly. -/

/-- Go `unicode.IsSpace`. -/
def goIsSpace (r : Nat) : Bool :=
  if r ≤ 255 then
    r == 9 || r == 10 || r == 11 || r == 12 || r == 13 || r == 32 ||
      r == 0x85 || r == 0xA0
  else
    r == 0x1680 || (0x2000 ≤ r && r ≤ 0x200A) || r == 0x2028 || r == 0x2029 ||
      r == 0x202F || r == 0x205F || r == 0x3000

/-- Go `unicode.IsControl` (false above Latin-1; the Latin-1 property
table sets `pC` on `0x00–0x1F`, `0x7F–0x9F` and `0xAD`). -/
def goIsControl (r : Nat) : Bool :=
  if r ≤ 255 then r < 0x20 || r == 0x7F || (0x80 ≤ r && r ≤ 0x9F) || r == 0xAD
  else false

/-- Octal digits of `n`, most significant first, as ASCII bytes.  The
fuel argument only drives structural recursion; `n` itself is always
sufficient fuel since `n / 8 < n` for `n ≥ 8`. -/
def octalDigitsF : Nat → Nat → List Nat
  | 0, n => [48 + n % 8]
  | fuel + 1, n => if n < 8 then [48 + n] else octalDigitsF fuel (n / 8) ++ [48 + n % 8]

/-- Go `fmt.Sprintf("%03o", n)`: octal digits zero-padded on the left to
at least three digits. -/
def fmtOctal3 (n : Nat) : List Nat :=
  List.replicate (3 - (octalDigitsF n n).length) 48 ++ octalDigitsF n n

/-- `encodeVis` (src/vis.go): decode the string rune by rune; whitespace
and backslash become `\NNN` (3-digit octal), other control characters
become `\^X` with `X = r + 0x40` (written as a rune), everything else is
copied verbatim. -/
def encodeVis (s : List Nat) : List Nat :=
  match s with
  | [] => []
  | b :: rest =>
    (if goIsSpace (decodeRune (b :: rest)).1 || (decodeRune (b :: rest)).1 == 92 then
        92 :: fmtOctal3 (decodeRune (b :: rest)).1
      else if goIsControl (decodeRune (b :: rest)).1 then
        92 :: 94 :: utf8EncodeRune ((decodeRune (b :: rest)).1 + 64)
      else utf8EncodeRune (decodeRune (b :: rest)).1) ++
      encodeVis ((b :: rest).drop (decodeRune (b :: rest)).2)
termination_by s.length
decreasing_by
  simp only [List.length_drop, List.length_cons]
  exact Nat.sub_lt (by omega) (decodeRune_size_pos _ _)

/-- Hex-digit value of an ASCII byte (`strconv.unhex`). -/
def unhex (b : Nat) : Option Nat :=
  if 48 ≤ b ∧ b ≤ 57 then some (b - 48)
  else if 97 ≤ b ∧ b ≤ 102 then some (b - 97 + 10)
  else if 65 ≤ b ∧ b ≤ 70 then some (b - 65 + 10)
  else none

/-- The digit-accumulation loop of `strconv.UnquoteChar`'s `\x`/`\u`/`\U`
cases (`v = v<<4 | x`, written `v*16 + x` since `x < 16`). -/
def hexLoop : Nat → Nat → List Nat → Option (Nat × List Nat)
  | 0, v, s => some (v, s)
  | _ + 1, _, [] => none
  | n + 1, v, b :: s' =>
    match unhex b with
    | none => none
    | some x => hexLoop n (v * 16 + x) s'

/-- The 3-digit octal case of `strconv.UnquoteChar` (first digit already
consumed as `c2`); `v = v<<3 | x` is written `v*8 + x` since `x < 8`. -/
def unquoteOctal (c2 : Nat) : List Nat → Option (Nat × List Nat)
  | d1 :: d2 :: s3 =>
    if (48 ≤ d1 ∧ d1 ≤ 55) ∧ (48 ≤ d2 ∧ d2 ≤ 55) then
      if (c2 - 48) * 64 + (d1 - 48) * 8 + (d2 - 48) > 255 then none
      else some ((c2 - 48) * 64 + (d1 - 48) * 8 + (d2 - 48), s3)
    else none
  | _ => none

/-- The escape switch of `strconv.UnquoteChar` (the bytes after the
backslash). -/
def unquoteEsc : List Nat → Option (Nat × List Nat)
  | [] => none
  | c2 :: s2 =>
    if c2 = 97 then some (7, s2)          -- \a
    else if c2 = 98 then some (8, s2)     -- \b
    else if c2 = 102 then some (12, s2)   -- \f
    else if c2 = 110 then some (10, s2)   -- \n
    else if c2 = 114 then some (13, s2)   -- \r
    else if c2 = 116 then some (9, s2)    -- \t
    else if c2 = 118 then some (11, s2)   -- \v
    else if c2 = 120 then                 -- \xNN
      match hexLoop 2 0 s2 with
      | none => none
      | some (v, rem) => some (v, rem)
    else if c2 = 117 then                 -- \uNNNN
      match hexLoop 4 0 s2 with
      | none => none
      | some (v, rem) => if ValidScalar v then some (v, rem) else none
    else if c2 = 85 then                  -- \UNNNNNNNN
      match hexLoop 8 0 s2 with
      | none => none
      | some (v, rem) => if ValidScalar v then some (v, rem) else none
    else if 48 ≤ c2 ∧ c2 ≤ 55 then unquoteOctal c2 s2
    else if c2 = 92 then some (92, s2)    -- backslash
    else none                             -- includes quote chars with quote = 0

/-- `strconv.UnquoteChar(s, 0)` (quote byte 0, as called by decodeVis),
returning the decoded value and the remaining input; `none` models the
error return.  The `multibyte` flag is dropped because decodeVis always
writes the value with `WriteRune`. -/
def goUnquoteChar : List Nat → Option (Nat × List Nat)
  | [] => none
  | c :: s =>
    if 0x80 ≤ c then
      -- c >= utf8.RuneSelf: decode one rune
      some ((decodeRune (c :: s)).1, (c :: s).drop (decodeRune (c :: s)).2)
    else if c ≠ 92 then some (c, s)
    else unquoteEsc s

/-- The `\M-X` sub-case of the decodeVis loop: `WriteByte(X | 0200)`. -/
def visStepMetaDash : List Nat → Option (List Nat × List Nat)
  | [] => none
  | c4 :: s4 => some ([Nat.lor c4 0x80], s4)

/-- The control sub-case of the decodeVis loop, with `meta` either `0`
(`\^X`) or `0200` (`\M^X`): `?` maps to DEL, otherwise `(X & 037) | meta`. -/
def visStepCaret (meta : Nat) : List Nat → Option (List Nat × List Nat)
  | [] => none
  | c3 :: s3 =>
    if c3 = 63 then some ([Nat.lor 0x7F meta], s3)
    else some ([Nat.lor (Nat.land c3 0x1F) meta], s3)

/-- The `\M` sub-case of the decodeVis loop. -/
def visStepMeta : List Nat → Option (List Nat × List Nat)
  | [] => none
  | c3 :: s3 =>
    if c3 = 45 then visStepMetaDash s3          -- '-'
    else if c3 = 94 then visStepCaret 0x80 s3   -- '^', fallthrough to control
    else none

/-- The escape case of the decodeVis loop (bytes after the backslash). -/
def visStepEsc : List Nat → Option (List Nat × List Nat)
  | [] => none
  | c2 :: s2 =>
    if (48 ≤ c2 ∧ c2 ≤ 55) ∨ c2 = 120 ∨ c2 = 92 ∨ c2 = 97 ∨ c2 = 98 ∨ c2 = 102 ∨
        c2 = 110 ∨ c2 = 114 ∨ c2 = 116 ∨ c2 = 118 then
      -- octal, hex or simple escape: re-parse from the backslash, WriteRune
      match goUnquoteChar (92 :: c2 :: s2) with
      | none => none
      | some (r, rem) => some (utf8EncodeRune r, rem)
    else if c2 = 77 then visStepMeta s2         -- 'M'
    else if c2 = 94 then visStepCaret 0 s2      -- '^'
    else if c2 = 115 then some ([32], s2)       -- 's': space
    else if c2 = 69 then some ([27], s2)        -- 'E': escape
    else if c2 = 10 ∨ c2 = 36 then some ([], s2)  -- hidden newline / '$'
    else none

/-- One iteration of the `decodeVis` loop: the emitted bytes and the
remaining input, or `none` on a malformed escape. -/
def visStep : List Nat → Option (List Nat × List Nat)
  | [] => none
  | ch :: s =>
    if ch = 92 then visStepEsc s
    else
      -- plain byte: decode one rune and re-emit it
      some (utf8EncodeRune (decodeRune (ch :: s)).1,
        (ch :: s).drop (decodeRune (ch :: s)).2)

theorem hexLoop_len (n : Nat) : ∀ v s r rem, hexLoop n v s = some (r, rem) →
    rem.length ≤ s.length := by
  induction n with
  | zero =>
    intro v s r rem h
    simp only [hexLoop, Option.some.injEq, Prod.mk.injEq] at h
    rw [← h.2]
  | succ n ih =>
    intro v s r rem h
    cases s with
    | nil => exact Option.noConfusion h
    | cons b s' =>
      simp only [hexLoop] at h
      cases hu : unhex b with
      | none => simp only [hu] at h; exact Option.noConfusion h
      | some x =>
        simp only [hu] at h
        have := ih _ _ _ _ h
        simp only [List.length_cons]
        omega

theorem unquoteOctal_len (c2 : Nat) (s : List Nat) (r : Nat) (rem : List Nat)
    (h : unquoteOctal c2 s = some (r, rem)) : rem.length + 2 ≤ s.length := by
  match s with
  | [] => exact Option.noConfusion h
  | [d1] => exact Option.noConfusion h
  | d1 :: d2 :: s3 =>
    simp only [unquoteOctal] at h
    split_ifs at h
    · simp only [Option.some.injEq, Prod.mk.injEq] at h
      rw [← h.2]
      simp only [List.length_cons]
      omega

set_option maxHeartbeats 1000000 in
theorem unquoteEsc_len (s : List Nat) (r : Nat) (rem : List Nat)
    (h : unquoteEsc s = some (r, rem)) : rem.length < s.length := by
  match s with
  | [] => exact Option.noConfusion h
  | c2 :: s2 =>
    simp only [unquoteEsc] at h
    simp only [List.length_cons]
    by_cases h1 : c2 = 97
    · rw [if_pos h1] at h
      simp only [Option.some.injEq, Prod.mk.injEq] at h
      rw [← h.2]; omega
    rw [if_neg h1] at h
    by_cases h2 : c2 = 98
    · rw [if_pos h2] at h
      simp only [Option.some.injEq, Prod.mk.injEq] at h
      rw [← h.2]; omega
    rw [if_neg h2] at h
    by_cases h3 : c2 = 102
    · rw [if_pos h3] at h
      simp only [Option.some.injEq, Prod.mk.injEq] at h
      rw [← h.2]; omega
    rw [if_neg h3] at h
    by_cases h4 : c2 = 110
    · rw [if_pos h4] at h
      simp only [Option.some.injEq, Prod.mk.injEq] at h
      rw [← h.2]; omega
    rw [if_neg h4] at h
    by_cases h5 : c2 = 114
    · rw [if_pos h5] at h
      simp only [Option.some.injEq, Prod.mk.injEq] at h
      rw [← h.2]; omega
    rw [if_neg h5] at h
    by_cases h6 : c2 = 116
    · rw [if_pos h6] at h
      simp only [Option.some.injEq, Prod.mk.injEq] at h
      rw [← h.2]; omega
    rw [if_neg h6] at h
    by_cases h7 : c2 = 118
    · rw [if_pos h7] at h
      simp only [Option.some.injEq, Prod.mk.injEq] at h
      rw [← h.2]; omega
    rw [if_neg h7] at h
    by_cases h8 : c2 = 120
    · rw [if_pos h8] at h
      rcases hh : hexLoop 2 0 s2 with _ | ⟨v2, r2⟩
      · simp only [hh] at h
        exact Option.noConfusion h
      · simp only [hh] at h
        simp only [Option.some.injEq, Prod.mk.injEq] at h
        have := hexLoop_len 2 0 s2 v2 r2 hh
        rw [← h.2]; omega
    rw [if_neg h8] at h
    by_cases h9 : c2 = 117
    · rw [if_pos h9] at h
      rcases hh : hexLoop 4 0 s2 with _ | ⟨v4, r4⟩
      · simp only [hh] at h
        exact Option.noConfusion h
      · simp only [hh] at h
        by_cases hv : ValidScalar v4
        · rw [if_pos hv] at h
          simp only [Option.some.injEq, Prod.mk.injEq] at h
          have := hexLoop_len 4 0 s2 v4 r4 hh
          rw [← h.2]; omega
        · rw [if_neg hv] at h
          exact Option.noConfusion h
    rw [if_neg h9] at h
    by_cases h10 : c2 = 85
    · rw [if_pos h10] at h
      rcases hh : hexLoop 8 0 s2 with _ | ⟨v8, r8⟩
      · simp only [hh] at h
        exact Option.noConfusion h
      · simp only [hh] at h
        by_cases hv : ValidScalar v8
        · rw [if_pos hv] at h
          simp only [Option.some.injEq, Prod.mk.injEq] at h
          have := hexLoop_len 8 0 s2 v8 r8 hh
          rw [← h.2]; omega
        · rw [if_neg hv] at h
          exact Option.noConfusion h
    rw [if_neg h10] at h
    by_cases h11 : 48 ≤ c2 ∧ c2 ≤ 55
    · rw [if_pos h11] at h
      have := unquoteOctal_len c2 s2 r rem h
      omega
    rw [if_neg h11] at h
    by_cases h12 : c2 = 92
    · rw [if_pos h12] at h
      simp only [Option.some.injEq, Prod.mk.injEq] at h
      rw [← h.2]; omega
    rw [if_neg h12] at h
    exact Option.noConfusion h

theorem goUnquoteChar_len (s : List Nat) (r : Nat) (rem : List Nat)
    (h : goUnquoteChar s = some (r, rem)) : rem.length < s.length := by
  match s with
  | [] => exact Option.noConfusion h
  | c :: s =>
    simp only [goUnquoteChar] at h
    split_ifs at h with hg hc
    · simp only [Option.some.injEq, Prod.mk.injEq] at h
      rw [← h.2]
      simp only [List.length_drop, List.length_cons]
      exact Nat.sub_lt (by omega) (decodeRune_size_pos _ _)
    · simp only [Option.some.injEq, Prod.mk.injEq] at h
      rw [← h.2]; simp
    · have := unquoteEsc_len s r rem h
      simp only [List.length_cons]
      omega

theorem visStepCaret_len (meta : Nat) (s : List Nat) (out rem : List Nat)
    (h : visStepCaret meta s = some (out, rem)) : rem.length + 1 ≤ s.length := by
  match s with
  | [] => exact Option.noConfusion h
  | c3 :: s3 =>
    simp only [visStepCaret] at h
    split_ifs at h <;>
      (simp only [Option.some.injEq, Prod.mk.injEq] at h; rw [← h.2]; simp)

theorem visStepMeta_len (s : List Nat) (out rem : List Nat)
    (h : visStepMeta s = some (out, rem)) : rem.length + 1 ≤ s.length := by
  match s with
  | [] => exact Option.noConfusion h
  | c3 :: s3 =>
    simp only [visStepMeta] at h
    split_ifs at h with h1 h2
    · match s3 with
      | [] => exact Option.noConfusion h
      | c4 :: s4 =>
        simp only [visStepMetaDash, Option.some.injEq, Prod.mk.injEq] at h
        rw [← h.2]
        simp only [List.length_cons]
        omega
    · have := visStepCaret_len 0x80 s3 out rem h
      simp only [List.length_cons]
      omega

theorem visStepEsc_len (s : List Nat) (out rem : List Nat)
    (h : visStepEsc s = some (out, rem)) : rem.length ≤ s.length := by
  match s with
  | [] => exact Option.noConfusion h
  | c2 :: s2 =>
    simp only [visStepEsc] at h
    simp only [List.length_cons]
    split_ifs at h with h1 h2 h3 h4 h5 h6
    · revert h
      cases hu : goUnquoteChar (92 :: c2 :: s2) with
      | none => intro h; exact Option.noConfusion h
      | some p =>
        intro h
        simp only [Option.some.injEq, Prod.mk.injEq] at h
        have := goUnquoteChar_len _ p.1 p.2 (by rw [hu])
        simp only [List.length_cons] at this
        rw [← h.2]; omega
    · have := visStepMeta_len s2 out rem h
      omega
    · have := visStepCaret_len 0 s2 out rem h
      omega
    all_goals
      (simp only [Option.some.injEq, Prod.mk.injEq] at h; rw [← h.2]; omega)

theorem visStep_shrinks (s out rem : List Nat) (h : visStep s = some (out, rem)) :
    rem.length < s.length := by
  match s with
  | [] => exact Option.noConfusion h
  | ch :: s =>
    simp only [visStep] at h
    split_ifs at h with hch
    · have := visStepEsc_len s out rem h
      simp only [List.length_cons]
      omega
    · simp only [Option.some.injEq, Prod.mk.injEq] at h
      rw [← h.2]
      simp only [List.length_drop, List.length_cons]
      exact Nat.sub_lt (by omega) (decodeRune_size_pos _ _)

/-- `decodeVis` (src/vis.go): iterate `visStep` until the input is
exhausted; `none` models the error return. -/
def decodeVis (s : List Nat) : Option (List Nat) :=
  match s with
  | [] => some []
  | b :: rest =>
    match h : visStep (b :: rest) with
    | none => none
    | some (out, rem) =>
      match decodeVis rem with
      | none => none
      | some tail => some (out ++ tail)
termination_by s.length
decreasing_by
  exact visStep_shrinks _ _ _ h

/-! ### Unfolding and round-trip lemmas for the vis codec -/

theorem encodeVis_nil : encodeVis [] = [] := by rw [encodeVis]

theorem decodeVis_nil : decodeVis [] = some [] := by rw [decodeVis]

theorem decodeVis_cons (b : Nat) (rest out rem : List Nat)
    (h : visStep (b :: rest) = some (out, rem)) :
    decodeVis (b :: rest) =
      match decodeVis rem with
      | none => none
      | some tail => some (out ++ tail) := by
  rw [decodeVis]
  split
  · rename_i heq
    rw [h] at heq
    exact Option.noConfusion heq
  · rename_i out2 rem2 heq
    rw [h] at heq
    simp only [Option.some.injEq, Prod.mk.injEq] at heq
    obtain ⟨h1, h2⟩ := heq
    subst h1
    subst h2
    rfl


theorem encodeVis_cons2 (b : Nat) (rest : List Nat) :
    encodeVis (b :: rest) =
      (if goIsSpace (decodeRune (b :: rest)).1 || (decodeRune (b :: rest)).1 == 92 then
          92 :: fmtOctal3 (decodeRune (b :: rest)).1
        else if goIsControl (decodeRune (b :: rest)).1 then
          92 :: 94 :: utf8EncodeRune ((decodeRune (b :: rest)).1 + 64)
        else utf8EncodeRune (decodeRune (b :: rest)).1) ++
        encodeVis ((b :: rest).drop (decodeRune (b :: rest)).2) := by
  rw [encodeVis]

theorem utf8EncodeRune_ne_nil (r : Nat) : utf8EncodeRune r ≠ [] := by
  unfold utf8EncodeRune
  split_ifs <;> simp

theorem encodeVis_encStep (r : Nat) (hv : ValidScalar r) (tail : List Nat) :
    encodeVis (utf8EncodeRune r ++ tail) =
      (if goIsSpace r || r == 92 then 92 :: fmtOctal3 r
        else if goIsControl r then 92 :: 94 :: utf8EncodeRune (r + 64)
        else utf8EncodeRune r) ++ encodeVis tail := by
  obtain ⟨b, l, hb⟩ : ∃ b l, utf8EncodeRune r = b :: l := by
    cases he : utf8EncodeRune r with
    | nil => exact absurd he (utf8EncodeRune_ne_nil r)
    | cons b l => exact ⟨b, l, rfl⟩
  have hd := decodeRune_encode r hv tail
  conv_lhs => rw [hb, List.cons_append, encodeVis_cons2, ← List.cons_append, ← hb]
  simp only [hd, List.drop_left]

set_option maxRecDepth 10000 in
theorem goIsSpace_le255 : ∀ r < 256, (goIsSpace r || r == 92) = true →
    (r = 9 ∨ r = 10 ∨ r = 11 ∨ r = 12 ∨ r = 13 ∨ r = 32 ∨ r = 92 ∨ r = 133 ∨ r = 160) := by
  decide

theorem visStep_space (r : Nat) (hr : (goIsSpace r || r == 92) = true) (hr2 : r ≤ 255)
    (rest : List Nat) :
    visStep (92 :: (fmtOctal3 r ++ rest)) = some (utf8EncodeRune r, rest) := by
  have h9 := goIsSpace_le255 r (by omega) hr
  rcases h9 with rfl|rfl|rfl|rfl|rfl|rfl|rfl|rfl|rfl <;> rfl

theorem visStep_control (r : Nat) (hr : r < 32) (rest : List Nat) :
    visStep (92 :: 94 :: (utf8EncodeRune (r + 64) ++ rest)) = some (utf8EncodeRune r, rest) := by
  interval_cases r <;> rfl

theorem visStep_plain (r : Nat) (hv : ValidScalar r)
    (hA : ¬ ((goIsSpace r || r == 92) = true)) (rest : List Nat) :
    visStep (utf8EncodeRune r ++ rest) = some (utf8EncodeRune r, rest) := by
  obtain ⟨b, l, hb, hb92⟩ : ∃ b l, utf8EncodeRune r = b :: l ∧ b ≠ 92 := by
    by_cases h80 : r < 0x80
    · refine ⟨r, [], ?_, ?_⟩
      · unfold utf8EncodeRune; rw [if_pos h80]
      · intro hcontra
        subst hcontra
        simp at hA
    · unfold utf8EncodeRune
      rw [if_neg h80]
      by_cases h800 : r < 0x800
      · rw [if_pos h800]
        exact ⟨_, _, rfl, by omega⟩
      · rw [if_neg h800, if_neg (not_not_intro hv)]
        by_cases h10 : r < 0x10000
        · rw [if_pos h10]; exact ⟨_, _, rfl, by omega⟩
        · rw [if_neg h10]; exact ⟨_, _, rfl, by omega⟩
  have hd := decodeRune_encode r hv rest
  rw [hb, List.cons_append] at hd ⊢
  rw [visStep, if_neg hb92, hd]
  simp only [hb, List.length_cons, List.drop_succ_cons, List.drop_left]

/-- The per-rune side condition under which the vis round-trip holds. -/
def VisSafe (r : Nat) : Prop :=
  ValidScalar r ∧ ((goIsSpace r || r == 92) = true → r ≤ 255) ∧
    (goIsControl r = true → ¬ ((goIsSpace r || r == 92) = true) → r < 32)

instance (r : Nat) : Decidable (VisSafe r) := by
  unfold VisSafe; infer_instance

/-- C5 (corrected). The vis round-trip `decodeVis (encodeVis s) = s` holds
for a string of runes `rs` when every rune is a valid Unicode scalar,
every whitespace rune (and the backslash) is in Latin-1 (`≤ 255`), and
every other control character is below `0x20`.  The claim's unrestricted
version is refuted by `vis_roundtrip_counterexample`: the control
characters `0x7F–0x9F` and `0xAD` are visually encoded as `\\^X` with a
multi-byte rune `X`, which the decoder reads back as a single byte. -/
theorem vis_roundtrip (rs : List Nat) (h : ∀ r ∈ rs, VisSafe r) :
    decodeVis (encodeVis (utf8Str rs)) = some (utf8Str rs) := by
  induction rs with
  | nil =>
    rw [show utf8Str [] = [] from rfl, encodeVis_nil, decodeVis_nil]
  | cons r rs ih =>
    obtain ⟨hv, hsp, hctl⟩ := h r (List.mem_cons_self r rs)
    have ih2 := ih (fun x hx => h x (List.mem_cons_of_mem r hx))
    rw [utf8Str_cons, encodeVis_encStep r hv (utf8Str rs)]
    by_cases hA : (goIsSpace r || r == 92) = true
    · rw [if_pos hA, List.cons_append]
      rw [decodeVis_cons _ _ _ _ (visStep_space r hA (hsp hA) (encodeVis (utf8Str rs)))]
      rw [ih2]
    · rw [if_neg hA]
      by_cases hB : goIsControl r = true
      · rw [if_pos hB, List.cons_append, List.cons_append]
        rw [decodeVis_cons _ _ _ _ (visStep_control r (hctl hB hA) (encodeVis (utf8Str rs)))]
        rw [ih2]
      · rw [if_neg hB]
        obtain ⟨b, l, hb⟩ : ∃ b l, utf8EncodeRune r = b :: l := by
          cases he : utf8EncodeRune r with
          | nil => exact absurd he (utf8EncodeRune_ne_nil r)
          | cons b l => exact ⟨b, l, rfl⟩
        have hstep := visStep_plain r hv hA (encodeVis (utf8Str rs))
        rw [hb, List.cons_append] at hstep ⊢
        rw [decodeVis_cons _ _ _ _ hstep, ih2]

/-- C5 counterexample: the round-trip fails on the single-rune string
`DEL` (`0x7F`): it encodes as `\\^` followed by the two-byte UTF-8
encoding of `0xBF`, which decodes to the byte `0x02` followed by a
replacement character, not to `0x7F`. -/
theorem vis_roundtrip_counterexample :
    decodeVis (encodeVis (utf8Str [127])) ≠ some (utf8Str [127]) := by
  have h3 := encodeVis_encStep 127 (by decide) []
  rw [show utf8EncodeRune 127 ++ ([] : List Nat) = [127] from rfl, encodeVis_nil] at h3
  have h2 : encodeVis [127] = [92, 94, 194, 191] := by rw [h3]; rfl
  rw [show utf8Str [127] = [127] from rfl, h2]
  rw [decodeVis_cons 92 [94, 194, 191] [2] [191] rfl]
  rw [decodeVis_cons 191 [] [239, 191, 189] [] rfl]
  rw [decodeVis_nil]
  decide

/-- C5 witness: the round-trip at the concrete input "hi\\t". -/
theorem vis_roundtrip_witness :
    decodeVis (encodeVis (utf8Str [104, 105, 9])) = some (utf8Str [104, 105, 9]) :=
  vis_roundtrip [104, 105, 9] (by decide)


/-! ## Screen model (src/screen.go)

The screen state components that the claims observe — the `prefix`,
`suffix` and `text` rune slices, the cursor position, the terminal size
and the output buffer — are modelled exactly.  The display-coordinate
cache (`lines`, `cursorX`, `cursorY`, `maxY`) and the terminal-echo
bytes produced from it by `renderText`/`moveCursor` (which depend on
the external go-runewidth width table) are abstracted into a
`RenderModel` parameter: every theorem below is proved for an arbitrary
render model, of which the real one is an instance.  Emissions that are
fixed strings in the source (`\x1b[K`, `\x1b[H\x1b[2J`, the bell and
the CRLF of finish-or-enter) are modelled byte-exactly.

The Go field `prefix` is named `pfx` here because `prefix` is a
reserved word in Lean; all other names follow the source. -/

/-- "\x1b[K" (`eraseLineToRight`). -/
def eraseLineToRightSeq : List Nat := [27, 91, 75]

/-- "\x1b[H\x1b[2J" (`eraseScreen`). -/
def eraseScreenSeq : List Nat := [27, 91, 72, 27, 91, 50, 74]

/-- "\r\n". -/
def crlf : List Nat := [13, 10]

/-- The screen state observed by the claims (src/screen.go `screen`).
Positions are Go `int`s, hence `Int`. -/
structure Screen where
  pfx : List Nat
  suffix : List Nat
  text : List Nat
  cursorPos : Int
  width : Int
  height : Int
  outbuf : List Nat
deriving Repr, DecidableEq

/-- Abstraction of the display-dependent byte emissions (cursor-movement
escapes, echoed glyphs, redraw loops).  Each field stands for the bytes
one code path appends to `outbuf`; no claim depends on their value. -/
structure RenderModel where
  renderTextOut : List Nat → Int → List Nat
  moveToOut : Int → List Nat
  cancelOut : List Nat
  setSizeOut : List Nat
  setSizeLoopOut : List Nat
  setSuffixLoopOut : List Nat
  eraseToLoopOut : List Nat

/-- The trivial render model (used to evaluate witnesses). -/
def silentRender : RenderModel :=
  ⟨fun _ _ => [], fun _ => [], [], [], [], [], []⟩

/-- The two sequential clamps at the top of `screen.MoveTo` and
`screen.EraseTo`: `if pos < 0 { pos = 0 }` then
`if pos > len(text)-len(suffix)-len(prefix) { pos = ... }`. -/
def clampPos (s : Screen) (pos : Int) : Int :=
  let p := if pos < 0 then 0 else pos
  if p > (s.text.length : Int) - s.suffix.length - s.pfx.length then
    (s.text.length : Int) - s.suffix.length - s.pfx.length
  else p

/-- `screen.renderText(end)`: advances `cursorPos` to `end` and emits the
rendered bytes (abstracted).  All call sites pass `end = len(s.text)`. -/
def Screen.renderText (R : RenderModel) (s : Screen) (e : Int) : Screen :=
  { s with cursorPos := e, outbuf := s.outbuf ++ R.renderTextOut s.text s.cursorPos }

/-- `screen.MoveTo(pos)`: clamp, shift by `len(prefix)`, set `cursorPos`,
emit cursor-movement escapes. -/
def Screen.MoveTo (R : RenderModel) (s : Screen) (pos : Int) : Screen :=
  let p := clampPos s pos + s.pfx.length
  { s with cursorPos := p, outbuf := s.outbuf ++ R.moveToOut p }

/-- `screen.Reset(prefix)`. -/
def Screen.Reset (R : RenderModel) (s : Screen) (pfx : List Nat) : Screen :=
  let s1 : Screen := { s with pfx := pfx, suffix := [], text := pfx, cursorPos := 0 }
  let s2 := s1.renderText R s1.text.length
  s2.MoveTo R 0

/-- `screen.Cancel()`. -/
def Screen.Cancel (R : RenderModel) (s : Screen) : Screen :=
  let s1 := s.MoveTo R s.text.length
  let s2 : Screen := { s1 with outbuf := s1.outbuf ++ R.cancelOut }
  s2.Reset R s2.pfx

/-- `screen.Refresh()`. -/
def Screen.Refresh (R : RenderModel) (s : Screen) : Screen :=
  let s1 : Screen := { s with outbuf := s.outbuf ++ eraseScreenSeq }
  let savedPos : Int := s1.cursorPos - s1.pfx.length
  let s2 := ({ s1 with cursorPos := 0 } : Screen).renderText R s1.text.length
  s2.MoveTo R savedPos

/-- `screen.SetSize(width, height)`. -/
def Screen.SetSize (R : RenderModel) (s : Screen) (w h : Int) : Screen :=
  if s.width = 0 then { s with width := w, height := h }
  else
    let w2 := if w = 0 then 1 else w
    let oldWidth := s.width
    let s1 : Screen := { s with width := w2, height := h }
    if w2 = oldWidth then s1
    else if w2 < oldWidth then s1.Refresh R
    else
      let savedPos : Int := s1.cursorPos - s1.pfx.length
      let s2 := ({ s1 with cursorPos := 0, outbuf := s1.outbuf ++ R.setSizeOut } :
        Screen).renderText R s1.text.length
      let s3 : Screen := { s2 with outbuf := s2.outbuf ++ eraseLineToRightSeq ++ R.setSizeLoopOut }
      s3.MoveTo R savedPos

/-- `screen.SetSuffix(newSuffix)`. -/
def Screen.SetSuffix (R : RenderModel) (s : Screen) (newSuffix : List Nat) : Screen :=
  let oldSuffix := s.suffix
  let s1 : Screen :=
    { s with suffix := newSuffix,
             text := s.text.take (s.text.length - oldSuffix.length) ++ newSuffix }
  let savedPos : Int := s1.cursorPos - s1.pfx.length
  let s2 := s1.MoveTo R s1.text.length
  let s3 := s2.renderText R s2.text.length
  let s4 : Screen := { s3 with outbuf := s3.outbuf ++ eraseLineToRightSeq ++ R.setSuffixLoopOut }
  s4.MoveTo R savedPos

/-- `zeroWidthJoiner` (U+200D). -/
def zeroWidthJoiner : Nat := 0x200d

/-- `isPrintable` (src/screen.go): `key & (keyCtrl|keyAlt)` is written with
`Nat.land`/`Nat.lor` directly. -/
def isPrintable (key : Nat) : Bool :=
  if Nat.land key (Nat.lor keyCtrl keyAlt) ≠ 0 then false
  else if key = zeroWidthJoiner then false
  else
    key == 10 || (32 ≤ key && !(0xd800 ≤ key && key ≤ 0xdbff))

/-- `screen.Insert(text...)`: filter out unprintable runes (ringing the
bell if any were dropped), splice the rest in at the cursor, re-render,
and move to just after the inserted text. -/
def Screen.Insert (R : RenderModel) (s : Screen) (txt : List Nat) : Screen :=
  let t := txt.filter isPrintable
  let s0 : Screen :=
    if t.length < txt.length then { s with outbuf := s.outbuf ++ [keyCtrlG] } else s
  if t.length = 0 then s0
  else
    let s1 : Screen :=
      { s0 with
        text := s0.text.take s0.cursorPos.toNat ++ t ++ s0.text.drop s0.cursorPos.toNat }
    let newPos : Int := s0.cursorPos + t.length - s0.pfx.length
    let s2 := s1.renderText R s1.text.length
    s2.MoveTo R newPos

/-- The common tail of `screen.EraseTo` after the text surgery:
re-render, erase the remainder of the line(s), and move back. -/
def Screen.eraseToTail (R : RenderModel) (s : Screen) : Screen :=
  let newPos : Int := s.cursorPos - s.pfx.length
  let s1 := s.renderText R s.text.length
  let s2 : Screen := { s1 with outbuf := s1.outbuf ++ eraseLineToRightSeq ++ R.eraseToLoopOut }
  s2.MoveTo R newPos

/-- `screen.EraseTo(pos)`: clamp the target, delete the text between it
and the cursor, and return the erased text (as its Go string bytes). -/
def Screen.EraseTo (R : RenderModel) (s : Screen) (pos : Int) : Screen × List Nat :=
  let p := clampPos s pos + s.pfx.length
  if p = s.cursorPos then (s, [])
  else if p < s.cursorPos then
    let erased := utf8Str ((s.text.drop p.toNat).take (s.cursorPos - p).toNat)
    let s1 : Screen := { s with text := s.text.take p.toNat ++ s.text.drop s.cursorPos.toNat }
    let s2 := s1.MoveTo R (p - (s1.pfx.length : Int))
    (s2.eraseToTail R, erased)
  else
    let erased := utf8Str ((s.text.drop s.cursorPos.toNat).take (p - s.cursorPos).toNat)
    let s1 : Screen := { s with text := s.text.take s.cursorPos.toNat ++ s.text.drop p.toNat }
    (s1.eraseToTail R, erased)

/-- `screen.End()`. -/
def Screen.End (s : Screen) : Int := s.text.length

/-- `screen.Text()`: `text[len(prefix) : len(text)-len(suffix)]`. -/
def Screen.Text (s : Screen) : List Nat :=
  (s.text.drop s.pfx.length).take (s.text.length - s.suffix.length - s.pfx.length)

/-- `screen.Position()`. -/
def Screen.Position (s : Screen) : Int := s.cursorPos - s.pfx.length

/-- The documented cursor invariant (src/screen.go, `cursorPos` comment):
`len(prefix) ≤ cursorPos ≤ len(text) - len(suffix)`, together with the
structural fact that the prefix and suffix fit inside the text, which the
clamping needs in order to be monotone. -/
def ScreenInv (s : Screen) : Prop :=
  (s.pfx.length : Int) + s.suffix.length ≤ s.text.length ∧
  (s.pfx.length : Int) ≤ s.cursorPos ∧
  s.cursorPos ≤ (s.text.length : Int) - s.suffix.length

instance (s : Screen) : Decidable (ScreenInv s) := by
  unfold ScreenInv; infer_instance

/-- The screen operations named by the claim. -/
inductive ScreenOp where
  | reset (pfx : List Nat)
  | moveTo (pos : Int)
  | insert (txt : List Nat)
  | eraseTo (pos : Int)
  | setSuffix (sfx : List Nat)
  | setSize (w h : Int)
  | refresh
  | cancel

/-- Applying a screen operation (for `eraseTo`, the resulting state). -/
def ScreenOp.apply (R : RenderModel) (s : Screen) : ScreenOp → Screen
  | .reset pfx => s.Reset R pfx
  | .moveTo pos => s.MoveTo R pos
  | .insert txt => s.Insert R txt
  | .eraseTo pos => (s.EraseTo R pos).1
  | .setSuffix sfx => s.SetSuffix R sfx
  | .setSize w h => s.SetSize R w h
  | .refresh => s.Refresh R
  | .cancel => s.Cancel R

theorem moveTo_inv (R : RenderModel) (s : Screen) (pos : Int)
    (h : (s.pfx.length : Int) + s.suffix.length ≤ s.text.length) :
    ScreenInv (s.MoveTo R pos) := by
  unfold Screen.MoveTo clampPos ScreenInv
  simp only
  split_ifs <;> omega


theorem clampPos_bounds (s : Screen) (pos : Int)
    (h : (s.pfx.length : Int) + s.suffix.length ≤ s.text.length) :
    0 ≤ clampPos s pos ∧
      clampPos s pos ≤ (s.text.length : Int) - s.suffix.length - s.pfx.length := by
  unfold clampPos
  simp only
  split_ifs <;> omega

theorem reset_inv (R : RenderModel) (s : Screen) (pfx : List Nat) :
    ScreenInv (s.Reset R pfx) := by
  unfold Screen.Reset
  apply moveTo_inv
  simp [Screen.renderText]

/-- C2 (confirmed). Every screen operation in the claim's list
re-establishes the cursor invariant
`len(prefix) ≤ cursorPos ≤ len(text) - len(suffix)` (together with
`len(prefix) + len(suffix) ≤ len(text)`), for an arbitrary render
model; in particular `MoveTo` and `EraseTo` clamp any requested `Int`
position into this range. -/
theorem screen_cursor_invariant (R : RenderModel) (s : Screen) (op : ScreenOp)
    (h : ScreenInv s) : ScreenInv (op.apply R s) := by
  obtain ⟨h1, h2, h3⟩ := h
  cases op with
  | reset pfx => exact reset_inv R s pfx
  | moveTo pos => exact moveTo_inv R s pos h1
  | insert txt =>
    unfold ScreenOp.apply Screen.Insert
    simp only
    split_ifs
    all_goals first
      | exact ⟨h1, h2, h3⟩
      | exact ⟨by simpa using h1, by simpa using h2, by simpa using h3⟩
      | (apply moveTo_inv
         simp only [Screen.renderText, List.length_append, List.length_take, List.length_drop]
         omega)
  | eraseTo pos =>
    have hc := clampPos_bounds s pos h1
    unfold ScreenOp.apply Screen.EraseTo
    simp only
    split_ifs with he hlt
    · exact ⟨h1, h2, h3⟩
    · unfold Screen.eraseToTail
      apply moveTo_inv
      simp only [Screen.renderText, Screen.MoveTo, List.length_append, List.length_take,
        List.length_drop]
      omega
    · unfold Screen.eraseToTail
      apply moveTo_inv
      simp only [Screen.renderText, List.length_append, List.length_take, List.length_drop]
      omega
  | setSuffix sfx =>
    unfold ScreenOp.apply Screen.SetSuffix
    apply moveTo_inv
    simp only [Screen.renderText, Screen.MoveTo, List.length_append, List.length_take]
    omega
  | setSize w hh =>
    unfold ScreenOp.apply Screen.SetSize
    simp only
    split_ifs
    all_goals first
      | exact ⟨h1, h2, h3⟩
      | exact ⟨by simpa using h1, by simpa using h2, by simpa using h3⟩
      | (apply moveTo_inv
         simp only [Screen.renderText]
         simpa using h1)
      | (unfold Screen.Refresh
         apply moveTo_inv
         simp only [Screen.renderText]
         simpa using h1)
  | refresh =>
    unfold ScreenOp.apply Screen.Refresh
    apply moveTo_inv
    simp only [Screen.renderText]
    simpa using h1
  | cancel =>
    unfold ScreenOp.apply Screen.Cancel
    exact reset_inv R _ _

/-- C2 witness: `MoveTo (-5)` on a concrete screen state whose prompt is
`">"` and whose input is `"a"` re-establishes the invariant. -/
theorem screen_cursor_invariant_witness :
    ScreenInv (ScreenOp.apply silentRender
      ⟨[62], [], [62, 97], 2, 80, 40, []⟩ (ScreenOp.moveTo (-5))) :=
  screen_cursor_invariant silentRender ⟨[62], [], [62, 97], 2, 80, 40, []⟩
    (ScreenOp.moveTo (-5)) (by decide)


/-! ## External unicode/width tables

`unicode.IsLetter`, `unicode.IsDigit` and `runewidth.RuneWidth` are
large external tables; the development is parameterized over them, so
every theorem holds for the real tables. -/

structure GoTables where
  isLetter : Nat → Bool
  isDigit : Nat → Bool
  runeWidth : Nat → Nat

/-- A trivial instantiation used to evaluate witnesses. -/
def noTables : GoTables := ⟨fun _ => false, fun _ => false, fun _ => 1⟩

/-- Go `[]rune(string)`: decode a byte string into runes with
`utf8.DecodeRuneInString` steps. -/
def utf8Decode (s : List Nat) : List Nat :=
  match s with
  | [] => []
  | b :: rest =>
    (decodeRune (b :: rest)).1 :: utf8Decode ((b :: rest).drop (decodeRune (b :: rest)).2)
termination_by s.length
decreasing_by
  simp only [List.length_drop, List.length_cons]
  exact Nat.sub_lt (by omega) (decodeRune_size_pos _ _)

/-- `utf8.RuneCountInString`. -/
def runeCount (s : List Nat) : Nat := (utf8Decode s).length

/-- Forward scan: advance `pos` while it is in bounds and `c` holds at
`text[pos]` (the shape of the `for pos < len(text) { if !c break; pos++ }`
loops in src/screen.go). -/
def scanFwdWhile (c : Nat → Bool) (text : List Nat) (pos : Nat) : Nat :=
  if h : pos < text.length then
    if c (text.get ⟨pos, h⟩) then scanFwdWhile c text (pos + 1) else pos
  else pos
termination_by text.length - pos

/-- Backward scan: decrement `pos` while `pos > 0` and `c` holds at
`text[pos]`. -/
def scanBackWhile (c : Nat → Bool) (text : List Nat) : Nat → Nat
  | 0 => 0
  | pos + 1 => if c (text.getD (pos + 1) 0) then scanBackWhile c text pos else pos + 1

/-- Backward scan: decrement `pos` while `pos > 0` and `c` holds at
`text[pos-1]`. -/
def scanBackWhilePred (c : Nat → Bool) (text : List Nat) : Nat → Nat
  | 0 => 0
  | pos + 1 => if c (text.getD pos 0) then scanBackWhilePred c text pos else pos + 1

/-- `isWord` (src/screen.go). -/
def isWord (T : GoTables) (r : Nat) : Bool := T.isLetter r || T.isDigit r

/-- `screen.NextWordEnd(pos)`. -/
def Screen.NextWordEnd (T : GoTables) (s : Screen) (pos : Int) : Int :=
  let text := s.Text
  let p1 := scanFwdWhile (fun r => ! isWord T r) text pos.toNat
  (scanFwdWhile (fun r => isWord T r) text p1 : Nat)

/-- `screen.PrevWordStart(pos)`. -/
def Screen.PrevWordStart (T : GoTables) (s : Screen) (pos : Int) : Int :=
  let text := s.Text
  let p0 := pos - 1
  if p0 ≤ 0 then 0
  else
    let p1 := scanBackWhile (fun r => ! isWord T r) text p0.toNat
    let p2 := scanBackWhilePred (fun r => isWord T r) text p1
    (p2 : Nat)

/-- The "zero-width, not a newline" test of the grapheme scans. -/
def zeroWidthRune (T : GoTables) (r : Nat) : Bool :=
  r != 10 && T.runeWidth r == 0

/-- `screen.NextGraphemeEnd()`.  Note the faithful quirk: the early-out
compares the position against `len(s.text)` (the full text), not
`len(text)` (the input slice). -/
def Screen.NextGraphemeEnd (T : GoTables) (s : Screen) : Int :=
  let text := s.Text
  let pos : Int := s.cursorPos - s.pfx.length
  if pos ≥ (s.text.length : Int) then pos
  else
    let p1 := scanFwdWhile (zeroWidthRune T) text pos.toNat
    let p2 := if p1 < text.length then p1 + 1 else p1
    (scanFwdWhile (zeroWidthRune T) text p2 : Nat)

/-- `screen.PrevGraphemeStart()`. -/
def Screen.PrevGraphemeStart (T : GoTables) (s : Screen) : Int :=
  if s.cursorPos ≤ (s.pfx.length : Int) then 0
  else
    let text := s.Text.take (s.cursorPos - s.pfx.length).toNat
    let p := scanBackWhilePred (zeroWidthRune T) text text.length
    ((p - 1 : Nat) : Int)

/-! ## Kill ring (src/kill_ring.go)

Entries are Go strings, i.e. byte lists.  `cap(r.entries)` is
`killRingMax` from the first use on (the slice is created with
`make([]string, 0, killRingMax)`), so `len(r.entries) < cap(r.entries)`
is modelled as `entries.length < killRingMax`. -/

def killRingMax : Nat := 10

structure KillRing where
  entries : List (List Nat)
  killing : Bool
  yanking : Bool
deriving Repr, DecidableEq

/-- `killRing.maybeBeginKill`: if already killing, nothing; else set
`killing`, then append a fresh entry if below capacity or shift the
entries left (dropping the oldest) and blank the last one. -/
def KillRing.maybeBeginKill (r : KillRing) : KillRing :=
  if r.killing then r
  else if r.entries.length < killRingMax then
    { r with killing := true, entries := r.entries ++ [[]] }
  else
    { r with killing := true, entries := r.entries.drop 1 ++ [[]] }

/-- `killRing.Append(e)`. -/
def KillRing.Append (r : KillRing) (e : List Nat) : KillRing :=
  let r := r.maybeBeginKill
  let head := r.entries.length - 1
  { r with entries := r.entries.set head (r.entries.getD head [] ++ e) }

/-- `killRing.Prepend(e)`. -/
def KillRing.Prepend (r : KillRing) (e : List Nat) : KillRing :=
  let r := r.maybeBeginKill
  let head := r.entries.length - 1
  { r with entries := r.entries.set head (e ++ r.entries.getD head []) }

/-- `killRing.Yank()`: the returned entry is converted to runes by the
caller-side `[]rune(...)`; the conversion is done by the yank commands
below. -/
def KillRing.Yank (r : KillRing) : KillRing × List Nat :=
  if r.entries.length = 0 then (r, [])
  else ({ r with yanking := true }, r.entries.getD (r.entries.length - 1) [])

/-- `killRing.Rotate()`. -/
def KillRing.Rotate (r : KillRing) : KillRing :=
  if r.entries.length = 0 then r
  else { r with entries := r.entries.getD (r.entries.length - 1) [] :: r.entries.dropLast }

/-! ## The prompt state (src/prompt.go `state`) and the command functions

`error` results of command functions are always `nil` or `io.EOF`;
they are modelled as `Option IOErr`. -/

inductive IOErr where
  | eof
deriving Repr, DecidableEq

structure History where
  pending : List Nat
  entries : List (List Nat)
  head : Int
  maxSize : Int
  index : Int
  searchDir : Int
  searchMatched : Bool
  searchKey : List Nat
  searchMatchedKey : List Nat
  file : Bool
  fileLog : List Nat
deriving Repr, DecidableEq

structure State where
  history : History
  killRing : KillRing
  screen : Screen
  inputFinished : Option (List Nat → Bool)

/-- The type of the Go `commandFunc` values, with the table and render
parameters threaded through. -/
def CommandFn : Type :=
  GoTables → RenderModel → State → Nat → State × Bool × Option IOErr


/-- `killCommands[cmdBackwardKillLine]`. -/
def cmdBackwardKillLineFn : CommandFn := fun _T R st _key =>
  let (scr, e) := st.screen.EraseTo R 0
  let kr := if 0 < e.length then st.killRing.Prepend e else st.killRing
  ({ st with screen := scr, killRing := kr }, true, none)

/-- `killCommands[cmdBackwardKillWord]`. -/
def cmdBackwardKillWordFn : CommandFn := fun T R st _key =>
  let (scr, e) := st.screen.EraseTo R (st.screen.PrevWordStart T st.screen.Position)
  let kr := if 0 < e.length then st.killRing.Prepend e else st.killRing
  ({ st with screen := scr, killRing := kr }, true, none)

/-- `killCommands[cmdKillLine]`. -/
def cmdKillLineFn : CommandFn := fun _T R st _key =>
  let (scr, e) := st.screen.EraseTo R st.screen.End
  let kr := if 0 < e.length then st.killRing.Append e else st.killRing
  ({ st with screen := scr, killRing := kr }, true, none)

/-- `killCommands[cmdKillWord]`. -/
def cmdKillWordFn : CommandFn := fun T R st _key =>
  let (scr, e) := st.screen.EraseTo R (st.screen.NextWordEnd T st.screen.Position)
  let kr := if 0 < e.length then st.killRing.Append e else st.killRing
  ({ st with screen := scr, killRing := kr }, true, none)

/-- `yankCommands[cmdYank]`. -/
def cmdYankFn : CommandFn := fun _T R st _key =>
  let (kr, y) := st.killRing.Yank
  ({ st with killRing := kr, screen := st.screen.Insert R (utf8Decode y) }, true, none)

/-- `yankCommands[cmdYankPop]`. -/
def cmdYankPopFn : CommandFn := fun _T R st _key =>
  if ! st.killRing.yanking then (st, true, none)
  else
    let (kr1, yanked) := st.killRing.Yank
    let yr := utf8Decode yanked
    let (scr1, _) := st.screen.EraseTo R (st.screen.Position - yr.length)
    let kr2 := kr1.Rotate
    let (kr3, y2) := kr2.Yank
    ({ st with killRing := kr3, screen := scr1.Insert R (utf8Decode y2) }, true, none)

/-- `killCommands` (src/kill_ring.go), as an association list. -/
def killCommands : List (String × CommandFn) :=
  [("backward-kill-line", cmdBackwardKillLineFn),
   ("backward-kill-word", cmdBackwardKillWordFn),
   ("kill-line", cmdKillLineFn),
   ("kill-word", cmdKillWordFn)]

/-- `yankCommands` (src/kill_ring.go). -/
def yankCommands : List (String × CommandFn) :=
  [("yank", cmdYankFn),
   ("yank-pop", cmdYankPopFn)]

/-- `killRing.Dispatch(s, cmd, key)` (src/kill_ring.go:108-120): kill
commands are run as-is; any other command clears `killing`; yank
commands are then run; any other command also clears `yanking` and the
dispatcher declines. -/
def KillRing.Dispatch (T : GoTables) (R : RenderModel) (st : State) (cmd : String)
    (key : Nat) : State × Bool × Option IOErr :=
  match killCommands.lookup cmd with
  | some fn => fn T R st key
  | none =>
    let st := { st with killRing := { st.killRing with killing := false } }
    match yankCommands.lookup cmd with
    | some fn => fn T R st key
    | none =>
      let st := { st with killRing := { st.killRing with yanking := false } }
      (st, false, none)


theorem maybeBeginKill_yanking (r : KillRing) : r.maybeBeginKill.yanking = r.yanking := by
  unfold KillRing.maybeBeginKill
  split_ifs <;> rfl

theorem killCommands_lookup (cmd : String) (fn : CommandFn)
    (h : killCommands.lookup cmd = some fn) :
    fn = cmdBackwardKillLineFn ∨ fn = cmdBackwardKillWordFn ∨ fn = cmdKillLineFn ∨
      fn = cmdKillWordFn := by
  simp only [killCommands, List.lookup] at h
  cases h1 : (cmd == "backward-kill-line") <;> simp only [h1, Option.some.injEq] at h
  · cases h2 : (cmd == "backward-kill-word") <;> simp only [h2, Option.some.injEq] at h
    · cases h3 : (cmd == "kill-line") <;> simp only [h3, Option.some.injEq] at h
      · cases h4 : (cmd == "kill-word") <;> simp only [h4, Option.some.injEq] at h
        · exact Option.noConfusion h
        · exact Or.inr (Or.inr (Or.inr h.symm))
      · exact Or.inr (Or.inr (Or.inl h.symm))
    · exact Or.inr (Or.inl h.symm)
  · exact Or.inl h.symm

theorem yankCommands_lookup (cmd : String) (fn : CommandFn)
    (h : yankCommands.lookup cmd = some fn) :
    fn = cmdYankFn ∨ fn = cmdYankPopFn := by
  simp only [yankCommands, List.lookup] at h
  cases h1 : (cmd == "yank") <;> simp only [h1, Option.some.injEq] at h
  · cases h2 : (cmd == "yank-pop") <;> simp only [h2, Option.some.injEq] at h
    · exact Option.noConfusion h
    · exact Or.inr h.symm
  · exact Or.inl h.symm

theorem Append_yanking (r : KillRing) (e : List Nat) :
    (r.Append e).yanking = r.yanking := by
  unfold KillRing.Append
  simp [maybeBeginKill_yanking]

theorem Prepend_yanking (r : KillRing) (e : List Nat) :
    (r.Prepend e).yanking = r.yanking := by
  unfold KillRing.Prepend
  simp [maybeBeginKill_yanking]

/-- Concrete states shared by the witnesses below: prompt `">"`, input
`"hi"`, cursor right after the prompt, one kill-ring entry `"x"` with
the `yanking` latch set. -/
def demoScreen : Screen := ⟨[62], [], [62, 104, 105], 1, 80, 40, []⟩

def demoHistory : History := ⟨[], [], 0, 100, -1, 0, false, [], [], false, []⟩

def demoKillRing : KillRing := ⟨[[120]], false, true⟩

def demoState : State := ⟨demoHistory, demoKillRing, demoScreen, none⟩

/-- C6 (corrected). Characterization of `killRing.Dispatch`: a kill
command is run as-is and in particular leaves the `yanking` latch
unchanged — contrary to the claim, it is NOT cleared at the start of a
kill sequence; a non-kill command clears `killing` and then a yank
command is run; a command that is neither also clears `yanking` and the
dispatcher declines. -/
theorem killRing_Dispatch_spec (T : GoTables) (R : RenderModel) (st : State)
    (cmd : String) (key : Nat) :
    (∀ fn, killCommands.lookup cmd = some fn →
      KillRing.Dispatch T R st cmd key = fn T R st key ∧
      (fn T R st key).1.killRing.yanking = st.killRing.yanking) ∧
    (killCommands.lookup cmd = none → ∀ fn, yankCommands.lookup cmd = some fn →
      KillRing.Dispatch T R st cmd key =
        fn T R { st with killRing := { st.killRing with killing := false } } key) ∧
    (killCommands.lookup cmd = none → yankCommands.lookup cmd = none →
      KillRing.Dispatch T R st cmd key =
        ({ st with killRing := { st.killRing with killing := false, yanking := false } },
          false, none)) := by
  refine ⟨?_, ?_, ?_⟩
  · intro fn hk
    refine ⟨by unfold KillRing.Dispatch; rw [hk], ?_⟩
    rcases killCommands_lookup cmd fn hk with rfl | rfl | rfl | rfl <;>
      (simp only [cmdBackwardKillLineFn, cmdBackwardKillWordFn, cmdKillLineFn,
         cmdKillWordFn]
       split_ifs <;> simp [Append_yanking, Prepend_yanking])
  · intro hk fn hy
    unfold KillRing.Dispatch
    rw [hk, hy]
  · intro hk hy
    unfold KillRing.Dispatch
    rw [hk, hy]

/-- C6 counterexample: dispatching the kill command `kill-line` on a
state whose `yanking` latch is set runs the kill (the erased input
`"hi"` is appended as a new kill-ring entry) but leaves `yanking` set,
refuting "clears yanking at the start of each kill sequence". -/
theorem killRing_Dispatch_counterexample :
    demoState.killRing.yanking = true ∧
    (killCommands.lookup "kill-line").isSome = true ∧
    (KillRing.Dispatch noTables silentRender demoState "kill-line" 11).1.killRing.entries
      = [[120], [104, 105]] ∧
    (KillRing.Dispatch noTables silentRender demoState "kill-line" 11).1.killRing.yanking
      = true := by decide

/-- C6 witness: a command that is neither kill nor yank (`finish-or-enter`)
clears both latches and is declined. -/
theorem killRing_Dispatch_spec_witness :
    KillRing.Dispatch noTables silentRender demoState "finish-or-enter" 13 =
      ({ demoState with killRing :=
          { demoState.killRing with killing := false, yanking := false } }, false, none) :=
  (killRing_Dispatch_spec noTables silentRender demoState "finish-or-enter" 13).2.2 rfl rfl

theorem maybeBeginKill_len (r : KillRing) (h : r.entries.length ≤ killRingMax) :
    r.maybeBeginKill.entries.length ≤ killRingMax := by
  unfold KillRing.maybeBeginKill
  simp only [killRingMax] at *
  split_ifs with h1 h2 <;> simp_all <;> omega

theorem Append_len (r : KillRing) (e : List Nat) (h : r.entries.length ≤ killRingMax) :
    (r.Append e).entries.length ≤ killRingMax := by
  unfold KillRing.Append
  simpa using maybeBeginKill_len r h

theorem Prepend_len (r : KillRing) (e : List Nat) (h : r.entries.length ≤ killRingMax) :
    (r.Prepend e).entries.length ≤ killRingMax := by
  unfold KillRing.Prepend
  simpa using maybeBeginKill_len r h

theorem Yank_len (r : KillRing) (h : r.entries.length ≤ killRingMax) :
    r.Yank.1.entries.length ≤ killRingMax := by
  unfold KillRing.Yank
  split_ifs <;> simpa using h

theorem Rotate_len (r : KillRing) (h : r.entries.length ≤ killRingMax) :
    r.Rotate.entries.length ≤ killRingMax := by
  unfold KillRing.Rotate
  simp only [killRingMax] at *
  split_ifs with h1 <;> simp_all [List.length_dropLast] <;> omega

/-- C7 (confirmed). The kill ring never grows beyond `killRingMax = 10`
entries: each primitive operation and a full `Dispatch` of any command
preserve `len(entries) ≤ 10`; and when a new entry is begun at capacity
(`maybeBeginKill` with `killing` unset and 10 entries), the oldest entry
— index 0 — is discarded FIFO-style and an empty current entry is
appended. -/
theorem killRing_capacity (T : GoTables) (R : RenderModel) (st : State) (cmd : String)
    (key : Nat) (r : KillRing) (e : List Nat) :
    (r.entries.length ≤ killRingMax →
      r.maybeBeginKill.entries.length ≤ killRingMax ∧
      (r.Append e).entries.length ≤ killRingMax ∧
      (r.Prepend e).entries.length ≤ killRingMax ∧
      r.Yank.1.entries.length ≤ killRingMax ∧
      r.Rotate.entries.length ≤ killRingMax) ∧
    (st.killRing.entries.length ≤ killRingMax →
      (KillRing.Dispatch T R st cmd key).1.killRing.entries.length ≤ killRingMax) ∧
    (r.killing = false → r.entries.length = killRingMax →
      r.maybeBeginKill.entries = r.entries.drop 1 ++ [[]]) := by
  refine ⟨fun h => ⟨maybeBeginKill_len r h, Append_len r e h, Prepend_len r e h,
    Yank_len r h, Rotate_len r h⟩, ?_, ?_⟩
  · intro h
    unfold KillRing.Dispatch
    cases hk : killCommands.lookup cmd with
    | some fn =>
      rcases killCommands_lookup cmd fn hk with rfl | rfl | rfl | rfl <;>
        (simp only [cmdBackwardKillLineFn, cmdBackwardKillWordFn, cmdKillLineFn,
           cmdKillWordFn]
         split_ifs <;> simp [Append_len _ _ h, Prepend_len _ _ h, h])
    | none =>
      simp only
      cases hy : yankCommands.lookup cmd with
      | some fn =>
        rcases yankCommands_lookup cmd fn hy with rfl | rfl
        · simp only [cmdYankFn]
          exact Yank_len _ h
        · simp only [cmdYankPopFn]
          split_ifs
          · simpa using h
          · exact Yank_len _ (Rotate_len _ (Yank_len _ h))
      | none => simpa using h
  · intro hkill hlen
    unfold KillRing.maybeBeginKill
    rw [if_neg (by simp [hkill]), if_neg (by omega)]

/-- C7 witness: beginning a new kill on a concrete full ring of ten
entries keeps the size at ten. -/
theorem killRing_capacity_witness :
    (KillRing.Append
        ⟨[[48], [49], [50], [51], [52], [53], [54], [55], [56], [57]], false, false⟩
        [97]).entries.length ≤ killRingMax :=
  ((killRing_capacity noTables silentRender demoState "kill-line" 11
      ⟨[[48], [49], [50], [51], [52], [53], [54], [55], [56], [57]], false, false⟩
      [97]).1 (by decide)).2.1


/-! ## History (src/unnamed/part_003; this is the generation of
src/history.go that has `maxSize` and the history file).  `head`,
`index`, `maxSize` and `searchDir` are Go `int`s; strings are byte
lists; the `io.WriteCloser` history file is modelled as an open flag
plus the appended bytes. -/

/-- `strings.Index(s, sub)`: byte index of the first occurrence, or -1. -/
def goIndexAux (s sub : List Nat) (i : Nat) : Int :=
  if h : i + sub.length ≤ s.length then
    if (s.drop i).take sub.length = sub then (i : Int) else goIndexAux s sub (i + 1)
  else -1
termination_by s.length + 1 - i
decreasing_by omega

def goIndex (s sub : List Nat) : Int := goIndexAux s sub 0

/-- `strings.LastIndex(s, sub)`: byte index of the last occurrence, or -1. -/
def goLastIndexAux (s sub : List Nat) : Nat → Int
  | 0 => if s.take sub.length = sub then 0 else -1
  | i + 1 =>
    if (s.drop (i + 1)).take sub.length = sub then ((i + 1 : Nat) : Int)
    else goLastIndexAux s sub i

def goLastIndex (s sub : List Nat) : Int :=
  if sub.length ≤ s.length then goLastIndexAux s sub (s.length - sub.length) else -1

/-- `utf8.RuneStart`: `b & 0xC0 != 0x80`. -/
def runeStart (b : Nat) : Bool := Nat.land b 0xC0 ≠ 0x80

/-- The backward scan of `utf8.DecodeLastRuneInString` for a rune-start
byte, stopping at `lim`; the fuel only bounds the loop and is always
sufficient at the call site. -/
def findRuneStart (s : List Nat) (lim : Nat) : Int → Nat → Int
  | start, 0 => start
  | start, fuel + 1 =>
    if start ≥ (lim : Int) then
      if runeStart (s.getD start.toNat 0) then start
      else findRuneStart s lim (start - 1) fuel
    else start

/-- The `size` result of `utf8.DecodeLastRuneInString(s)`. -/
def lastRuneSize (s : List Nat) : Nat :=
  if s.length = 0 then 0
  else if s.getD (s.length - 1) 0 < 0x80 then 1
  else
    let lim : Nat := s.length - 4
    let start := findRuneStart s lim ((s.length : Int) - 2) s.length
    let start := if start < 0 then 0 else start
    let d := decodeRune (s.drop start.toNat)
    if (start + d.2 : Int) ≠ (s.length : Int) then 1 else d.2

/-- `history.entryIndex(n)`. -/
def History.entryIndex (h : History) (n : Int) : Int :=
  if n ≥ (h.entries.length : Int) then -1
  else
    let index := h.head - n
    if index < 0 then index + h.entries.length else index

/-- `history.entry(n)`. -/
def History.entry (h : History) (n : Int) : List Nat :=
  if n = -1 then h.pending
  else
    let i := h.entryIndex n
    if i = -1 then [] else h.entries.getD i.toNat []

/-- `history.save(cur)` (stores `string(cur)`). -/
def History.save (h : History) (cur : List Nat) : History :=
  if h.index = -1 then { h with pending := utf8Str cur }
  else
    let index := h.entryIndex h.index
    if index = -1 then h
    else { h with entries := h.entries.set index.toNat (utf8Str cur) }

/-- The growth step of `history.Add`:
`if h.maxSize == -1 || len(h.entries) < h.maxSize { append "" }`. -/
def historyGrow (h : History) : List (List Nat) :=
  if h.maxSize = -1 ∨ (h.entries.length : Int) < h.maxSize then h.entries ++ [[]]
  else h.entries

/-- `history.Add(s)` (src/unnamed/part_003:484-506).  `%` on Go ints is
truncated division, hence `Int.tmod`. -/
def History.Add (h : History) (s : List Nat) : History :=
  if h.maxSize = 0 then h
  else if h.entry 0 = s then h
  else
    { h with
      entries := (historyGrow h).set
        (Int.tmod (h.head + 1) ((historyGrow h).length : Int)).toNat s,
      head := Int.tmod (h.head + 1) ((historyGrow h).length : Int),
      index := -1,
      fileLog := if h.file then h.fileLog ++ encodeVis s ++ [10] else h.fileLog }

/-- `history.CancelSearch(s)`. -/
def History.CancelSearch (R : RenderModel) (st : State) : State × Bool × Option IOErr :=
  if st.history.searchDir = 0 then (st, false, none)
  else
    let h := { st.history with searchDir := 0, searchMatched := false, searchKey := ([] : List Nat), searchMatchedKey := ([] : List Nat) }
    ({ st with screen := st.screen.SetSuffix R [], history := h }, true, none)

/-- `history.maybeInitSearch(s)`. -/
def History.maybeInitSearch (st : State) : State :=
  if st.history.searchDir ≠ 0 then st
  else
    let h0 := if st.history.entries.length = 0 then { st.history with index := -1 }
      else st.history
    let h1 := h0.save st.screen.Text
    { st with history := { h1 with searchMatchedKey := [] } }

/-- `history.searchEntry(s, i, advance)`. -/
def History.searchEntry (R : RenderModel) (st : State) (i : Int) (advance : Bool) :
    State × Bool :=
  let entry := st.history.entry i
  let pos : Int :=
    if st.history.searchDir = 1 then
      let n : Int :=
        if i = st.history.index then
          let n0 := st.screen.Position
          let n1 := if advance then n0 + 1 else n0
          if n1 > (entry.length : Int) then (entry.length : Int) else n1
        else 0
      let p := goIndex (entry.drop n.toNat) st.history.searchKey
      if p ≠ -1 then p + n else p
    else if st.history.searchDir = -1 then
      let n : Int :=
        if i = st.history.index then
          let n0 := st.screen.Position + st.history.searchKey.length
          let n1 := if advance then n0 - 1 else n0
          let n2 := if n1 < 0 then 0 else n1
          if n2 > (entry.length : Int) then (entry.length : Int) else n2
        else (entry.length : Int)
      goLastIndex (entry.take n.toNat) st.history.searchKey
    else 0
  if pos = -1 then (st, false)
  else
    let h2 := { st.history.save st.screen.Text with index := i }
    let scr1 := st.screen.MoveTo R 0
    let scr2 := (scr1.EraseTo R scr1.End).1
    let scr3 := scr2.Insert R (utf8Decode entry)
    let scr4 := scr3.MoveTo R (runeCount (entry.take pos.toNat))
    ({ st with history := h2, screen := scr4 }, true)

/-- The `for i := h.index; i >= -1; i--` loop of `updateSearch` (forward
search).  The fuel is `index + 2` at the call site, which covers every
iteration. -/
def updateSearchLoopFwd (R : RenderModel) : Nat → State → Bool → Int → State
  | 0, st, _, _ => st
  | fuel + 1, st, advance, i =>
    if i ≥ -1 then
      let (st1, ok) := History.searchEntry R st i advance
      if ok then
        let h := { st1.history with searchMatched := true, searchMatchedKey := st1.history.searchKey }
        { st1 with history := h }
      else updateSearchLoopFwd R fuel st1 advance (i - 1)
    else st

/-- The `for i := h.index; i < len(h.entries); i++` loop of
`updateSearch` (reverse search). -/
def updateSearchLoopBck (R : RenderModel) : Nat → State → Bool → Int → State
  | 0, st, _, _ => st
  | fuel + 1, st, advance, i =>
    if i < (st.history.entries.length : Int) then
      let (st1, ok) := History.searchEntry R st i advance
      if ok then
        let h := { st1.history with searchMatched := true, searchMatchedKey := st1.history.searchKey }
        { st1 with history := h }
      else updateSearchLoopBck R fuel st1 advance (i + 1)
    else st

/-- `history.updateSearch(s, advance)`: search `"fwd"` is the bytes
`[102,119,100]`, `"bck"` is `[98,99,107]`, and the suffix is
`"\n" ++ dir ++ (":"|"?") ++ "`" ++ searchKey ++ "'"`. -/
def History.updateSearch (R : RenderModel) (st : State) (advance : Bool) : State :=
  let st := { st with history := { st.history with searchMatched := false } }
  let st :=
    if 0 < st.history.searchKey.length then
      if st.history.searchDir = 1 then
        updateSearchLoopFwd R (st.history.index + 2).toNat st advance st.history.index
      else if st.history.searchDir = -1 then
        updateSearchLoopBck R (st.history.entries.length + 2) st advance st.history.index
      else st
    else st
  let dir := if st.history.searchDir < 0 then [98, 99, 107] else [102, 119, 100]
  let matched :=
    if st.history.searchKey.length = 0 || st.history.searchMatched then [58] else [63]
  let newSuffix := [10] ++ dir ++ matched ++ [96] ++ st.history.searchKey ++ [39]
  { st with screen := st.screen.SetSuffix R (utf8Decode newSuffix) }

/-- `history.ForwardSearch(s)`. -/
def History.ForwardSearch (R : RenderModel) (st : State) : State × Bool × Option IOErr :=
  let st := History.maybeInitSearch st
  let st := { st with history := { st.history with searchDir := 1 } }
  (History.updateSearch R st true, true, none)

/-- `history.ReverseSearch(s)`. -/
def History.ReverseSearch (R : RenderModel) (st : State) : State × Bool × Option IOErr :=
  let st := History.maybeInitSearch st
  let st := { st with history := { st.history with searchDir := -1 } }
  (History.updateSearch R st true, true, none)

/-- `history.AppendSearchKey(s, key)` (`string(key)` is the UTF-8
encoding of the rune). -/
def History.AppendSearchKey (R : RenderModel) (st : State) (key : Nat) :
    State × Bool × Option IOErr :=
  if st.history.searchDir = 0 then (st, false, none)
  else if isPrintable key then
    let h := { st.history with searchKey := st.history.searchKey ++ utf8EncodeRune key }
    let st := { st with history := h }
    (History.updateSearch R st false, true, none)
  else (st, true, none)

/-- `history.TruncateSearchKey(s)`. -/
def History.TruncateSearchKey (R : RenderModel) (st : State) : State × Bool × Option IOErr :=
  if st.history.searchDir = 0 then (st, false, none)
  else if 0 < st.history.searchKey.length then
    let size := lastRuneSize st.history.searchKey
    let h := { st.history with searchKey := st.history.searchKey.take (st.history.searchKey.length - size) }
    let st := { st with history := h }
    (History.updateSearch R st false, true, none)
  else (st, true, none)

/-- `history.AbortSearch(s)`. -/
def History.AbortSearch (R : RenderModel) (st : State) : State × Bool × Option IOErr :=
  if st.history.searchDir = 0 then (st, false, none)
  else if ! st.history.searchMatched then
    let h := { st.history with searchKey := st.history.searchMatchedKey }
    let st := { st with history := h }
    (History.updateSearch R st false, true, none)
  else History.CancelSearch R st

/-- `history.Next(s)`. -/
def History.Next (R : RenderModel) (st : State) : State × Bool × Option IOErr :=
  if st.history.searchDir ≠ 0 then History.ForwardSearch R st
  else if st.history.index = -1 then (st, false, none)
  else
    let h2 := { st.history.save st.screen.Text with index := st.history.index - 1 }
    let scr1 := st.screen.MoveTo R 0
    let scr2 := (scr1.EraseTo R scr1.End).1
    let scr3 := scr2.Insert R (utf8Decode (h2.entry h2.index))
    ({ st with history := h2, screen := scr3 }, true, none)

/-- `history.Previous(s)`. -/
def History.Previous (R : RenderModel) (st : State) : State × Bool × Option IOErr :=
  if st.history.searchDir ≠ 0 then History.ReverseSearch R st
  else if st.history.index + 1 ≥ (st.history.entries.length : Int) then (st, false, none)
  else
    let h2 := { st.history.save st.screen.Text with index := st.history.index + 1 }
    let scr1 := st.screen.MoveTo R 0
    let scr2 := (scr1.EraseTo R scr1.End).1
    let scr3 := scr2.Insert R (utf8Decode (h2.entry h2.index))
    ({ st with history := h2, screen := scr3 }, true, none)

def cmdAbortFn : CommandFn := fun _T R st _key => History.AbortSearch R st
def cmdHistBackwardDeleteCharFn : CommandFn := fun _T R st _key =>
  History.TruncateSearchKey R st
def cmdHistCancelFn : CommandFn := fun _T R st _key => History.CancelSearch R st
def cmdForwardSearchHistoryFn : CommandFn := fun _T R st _key => History.ForwardSearch R st
def cmdHistInsertCharFn : CommandFn := fun _T R st key => History.AppendSearchKey R st key
def cmdReverseSearchHistoryFn : CommandFn := fun _T R st _key => History.ReverseSearch R st
def cmdNextHistoryFn : CommandFn := fun _T R st _key => History.Next R st
def cmdPreviousHistoryFn : CommandFn := fun _T R st _key => History.Previous R st

/-- `historyCommands` (src/history.go / src/unnamed/part_003). -/
def historyCommands : List (String × CommandFn) :=
  [("abort", cmdAbortFn),
   ("backward-delete-char", cmdHistBackwardDeleteCharFn),
   ("cancel", cmdHistCancelFn),
   ("forward-search-history", cmdForwardSearchHistoryFn),
   ("insert-char", cmdHistInsertCharFn),
   ("reverse-search-history", cmdReverseSearchHistoryFn),
   ("next-history", cmdNextHistoryFn),
   ("previous-history", cmdPreviousHistoryFn)]

/-- `history.Dispatch(s, cmd, key)`: a non-history command aborts any
active search (`CancelSearch` never returns an error, but the source's
error propagation is modelled). -/
def History.Dispatch (T : GoTables) (R : RenderModel) (st : State) (cmd : String)
    (key : Nat) : State × Bool × Option IOErr :=
  match historyCommands.lookup cmd with
  | some fn => fn T R st key
  | none =>
    match History.CancelSearch R st with
    | (st1, _, some e) => (st1, true, some e)
    | (st1, _, none) => (st1, false, none)


theorem getD_set_self {α : Type} (l : List α) (i : Nat) (a d : α) (h : i < l.length) :
    (l.set i a).getD i d = a := by
  induction l generalizing i with
  | nil => simp at h
  | cons b t ih =>
    cases i with
    | zero => rfl
    | succ j =>
      simp only [List.set_cons_succ, List.getD_cons_succ]
      exact ih j (by simpa using h)

theorem tmod_bounds (a b : Int) (ha : 0 ≤ a) (hb : 0 < b) :
    0 ≤ Int.tmod a b ∧ Int.tmod a b < b := by
  rw [Int.tmod_eq_emod ha (le_of_lt hb)]
  exact ⟨Int.emod_nonneg a (by omega), Int.emod_lt_of_pos a hb⟩

/-- C8 (confirmed). `history.Add(s)` is a no-op when the capacity is 0 or
when `s` equals the newest entry `entry(0)`; otherwise (for a
well-formed capacity and a non-negative head) it advances `head` with
wraparound, stores `s` as the newest entry — so `entry(0) = s` — and
resets the navigation index to -1. -/
theorem history_Add_spec (h : History) (s : List Nat) :
    (h.maxSize = 0 → h.Add s = h) ∧
    (h.entry 0 = s → h.Add s = h) ∧
    ((h.maxSize = -1 ∨ 0 < h.maxSize) → 0 ≤ h.head → h.entry 0 ≠ s →
      (h.Add s).entry 0 = s ∧ (h.Add s).index = -1 ∧
      (h.Add s).head = Int.tmod (h.head + 1) ((h.Add s).entries.length : Int)) := by
  refine ⟨?_, ?_, ?_⟩
  · intro h0
    unfold History.Add
    rw [if_pos h0]
  · intro he
    unfold History.Add
    split_ifs with h1 h2 <;> first | rfl | exact absurd he h2
  · intro hm hh hne
    have hm0 : h.maxSize ≠ 0 := by rcases hm with hg2 | hp <;> omega
    have hEpos : 0 < (historyGrow h).length := by
      unfold historyGrow
      split_ifs with hg
      · simp
      · rcases hm with hg2 | hp
        · exact absurd (Or.inl hg2) hg
        · by_contra hc
          push_neg at hg hc
          omega
    have hbd := tmod_bounds (h.head + 1) ((historyGrow h).length : Int)
      (by omega) (by exact_mod_cast hEpos)
    unfold History.Add
    rw [if_neg hm0, if_neg hne]
    refine ⟨?_, rfl, by simp [List.length_set]⟩
    unfold History.entry History.entryIndex
    simp only [List.length_set]
    rw [if_neg (by omega : ¬ (0 : Int) = -1)]
    rw [if_neg (by push_cast; omega : ¬ (0 : Int) ≥ ((historyGrow h).length : Int))]
    simp only [sub_zero]
    rw [if_neg (by omega : ¬ Int.tmod (h.head + 1) ((historyGrow h).length : Int) < 0)]
    rw [if_neg (by omega : ¬ Int.tmod (h.head + 1) ((historyGrow h).length : Int) = -1)]
    exact getD_set_self _ _ _ _ (by omega)

/-- C8 witness: adding `"a"` to a concrete two-entry history stores it
as the newest entry and resets the index. -/
theorem history_Add_spec_witness :
    ((⟨[], [[120], [121]], 1, 100, 0, 0, false, [], [], false, []⟩ : History).Add
        [97]).entry 0 = [97] ∧
    ((⟨[], [[120], [121]], 1, 100, 0, 0, false, [], [], false, []⟩ : History).Add
        [97]).index = -1 :=
  let h0 : History := ⟨[], [[120], [121]], 1, 100, 0, 0, false, [], [], false, []⟩
  let r := (history_Add_spec h0 [97]).2.2 (Or.inr (by decide)) (by decide) (by decide)
  ⟨r.1, r.2.1⟩


/-! ## Base commands, key bindings and the prompt driver
(src/unnamed/part_003 `baseCommands`/`defaultBindings`, src/prompt.go) -/

def cmdBackwardCharFn : CommandFn := fun T R st _key =>
  ({ st with screen := st.screen.MoveTo R (st.screen.PrevGraphemeStart T) }, true, none)

def cmdBaseBackwardDeleteCharFn : CommandFn := fun T R st _key =>
  ({ st with screen := (st.screen.EraseTo R (st.screen.PrevGraphemeStart T)).1 }, true, none)

def cmdBackwardWordFn : CommandFn := fun T R st _key =>
  ({ st with screen := st.screen.MoveTo R (st.screen.PrevWordStart T st.screen.Position) },
    true, none)

def cmdBeginningOfLineFn : CommandFn := fun _T R st _key =>
  ({ st with screen := st.screen.MoveTo R 0 }, true, none)

def cmdCancelFn : CommandFn := fun _T R st _key =>
  if st.screen.Text.length = 0 then (st, true, some .eof)
  else ({ st with screen := st.screen.Cancel R }, true, none)

def cmdClearScreenFn : CommandFn := fun _T R st _key =>
  ({ st with screen := st.screen.Refresh R }, true, none)

def cmdDeleteCharFn : CommandFn := fun T R st _key =>
  ({ st with screen := (st.screen.EraseTo R (st.screen.NextGraphemeEnd T)).1 }, true, none)

def cmdDeleteHorizontalSpaceFn : CommandFn := fun _T R st _key =>
  let text := st.screen.Text
  let prevWordEnd := scanBackWhilePred goIsSpace text st.screen.Position.toNat
  let nextWordStart := scanFwdWhile goIsSpace text prevWordEnd
  if (nextWordStart : Int) ≥ st.screen.Position ∧ prevWordEnd < nextWordStart then
    let scr1 := st.screen.MoveTo R prevWordEnd
    ({ st with screen := (scr1.EraseTo R nextWordStart).1 }, true, none)
  else (st, true, none)

def cmdEndOfLineFn : CommandFn := fun _T R st _key =>
  ({ st with screen := st.screen.MoveTo R st.screen.End }, true, none)

def cmdEnterFn : CommandFn := fun _T R st _key =>
  ({ st with screen := st.screen.Insert R [10] }, true, none)

def cmdExitOrDeleteCharFn : CommandFn := fun T R st _key =>
  if st.screen.Text.length = 0 then (st, true, some .eof)
  else ({ st with screen := (st.screen.EraseTo R (st.screen.NextGraphemeEnd T)).1 }, true, none)

/-- `baseCommands[cmdFinishOrEnter]` (src/unnamed/part_003:193-200): if
the host `inputFinished` callback is absent or approves the current
text, write CRLF to the output buffer and return `io.EOF`; otherwise
insert a newline. -/
def cmdFinishOrEnterFn : CommandFn := fun _T R st _key =>
  if (match st.inputFinished with
      | none => true
      | some f => f (utf8Str st.screen.Text)) then
    ({ st with screen := { st.screen with outbuf := st.screen.outbuf ++ crlf } },
      true, some .eof)
  else ({ st with screen := st.screen.Insert R [10] }, true, none)

def cmdForwardCharFn : CommandFn := fun T R st _key =>
  ({ st with screen := st.screen.MoveTo R (st.screen.NextGraphemeEnd T) }, true, none)

def cmdForwardWordFn : CommandFn := fun T R st _key =>
  ({ st with screen := st.screen.MoveTo R (st.screen.NextWordEnd T st.screen.Position) },
    true, none)

def cmdBaseInsertCharFn : CommandFn := fun _T R st key =>
  ({ st with screen := st.screen.Insert R [key] }, true, none)

def cmdSetMarkFn : CommandFn := fun _T _R st _key => (st, true, none)

def cmdTransposeCharsFn : CommandFn := fun T R st _key =>
  let (scr1, text) := st.screen.EraseTo R (st.screen.PrevGraphemeStart T)
  if 0 < text.length then
    let scr2 := scr1.MoveTo R (scr1.NextGraphemeEnd T)
    ({ st with screen := scr2.Insert R (utf8Decode text) }, true, none)
  else ({ st with screen := scr1 }, true, none)

def cmdTransposeWordsFn : CommandFn := fun T R st _key =>
  let nextWordEnd := st.screen.NextWordEnd T st.screen.Position
  let nextWordStart := st.screen.PrevWordStart T nextWordEnd
  let prevWordStart := st.screen.PrevWordStart T nextWordStart
  let prevWordEnd := st.screen.NextWordEnd T prevWordStart
  if prevWordStart ≠ nextWordStart then
    let scr1 := st.screen.MoveTo R nextWordStart
    let (scr2, nextWord) := scr1.EraseTo R nextWordEnd
    let scr3 := scr2.MoveTo R prevWordStart
    let (scr4, prevWord) := scr3.EraseTo R prevWordEnd
    let scr5 := scr4.Insert R (utf8Decode nextWord)
    let scr6 := scr5.MoveTo R (scr5.Position + nextWordStart - prevWordEnd)
    ({ st with screen := scr6.Insert R (utf8Decode prevWord) }, true, none)
  else (st, true, none)

def cmdUndoFn : CommandFn := fun _T _R st _key => (st, true, none)

/-- `baseCommands` (src/unnamed/part_003:116-254). -/
def baseCommands : List (String × CommandFn) :=
  [("backward-char", cmdBackwardCharFn),
   ("backward-delete-char", cmdBaseBackwardDeleteCharFn),
   ("backward-word", cmdBackwardWordFn),
   ("beginning-of-line", cmdBeginningOfLineFn),
   ("cancel", cmdCancelFn),
   ("clear-screen", cmdClearScreenFn),
   ("delete-char", cmdDeleteCharFn),
   ("delete-horizontal-space", cmdDeleteHorizontalSpaceFn),
   ("end-of-line", cmdEndOfLineFn),
   ("enter", cmdEnterFn),
   ("exit-or-delete-char", cmdExitOrDeleteCharFn),
   ("finish-or-enter", cmdFinishOrEnterFn),
   ("forward-char", cmdForwardCharFn),
   ("forward-word", cmdForwardWordFn),
   ("insert-char", cmdBaseInsertCharFn),
   ("set-mark", cmdSetMarkFn),
   ("transpose-chars", cmdTransposeCharsFn),
   ("transpose-words", cmdTransposeWordsFn),
   ("undo", cmdUndoFn)]

/-- The key→command map produced by `parseBindings(defaultBindings)`
(src/unnamed/part_003:49-92 with the `Control-[a-z]` translation of
parseBinding and the opposite-case auto-binding of Meta keys applied).
Control keys `Control-x` become the raw control byte `x - 0x60`;
`Meta-x` for a letter `x` is additionally bound with the opposite case. -/
def defaultBindingsMap : List (Nat × String) :=
  [(keyBackspace, "backward-delete-char"),
   (keyDelete, "delete-char"),
   (keyDown, "next-history"),
   (keyEnd, "end-of-line"),
   (keyEnter, "finish-or-enter"),
   (keyHome, "beginning-of-line"),
   (keyLeft, "backward-char"),
   (keyRight, "forward-char"),
   (keyUp, "previous-history"),
   (Nat.lor keyLeft keyCtrl, "backward-word"),
   (Nat.lor keyRight keyCtrl, "forward-word"),
   (Nat.lor 32 keyCtrl, "set-mark"),
   (Nat.lor 95 keyCtrl, "undo"),
   (1, "beginning-of-line"),
   (2, "backward-char"),
   (3, "cancel"),
   (4, "exit-or-delete-char"),
   (5, "end-of-line"),
   (6, "forward-char"),
   (7, "abort"),
   (8, "backward-delete-char"),
   (11, "kill-line"),
   (12, "clear-screen"),
   (14, "next-history"),
   (16, "previous-history"),
   (18, "reverse-search-history"),
   (19, "forward-search-history"),
   (20, "transpose-chars"),
   (21, "backward-kill-line"),
   (23, "backward-kill-word"),
   (25, "yank"),
   (Nat.lor keyBackspace keyAlt, "backward-kill-word"),
   (Nat.lor 8 keyAlt, "backward-kill-word"),
   (Nat.lor keyEnter keyAlt, "enter"),
   (Nat.lor keyLeft keyAlt, "backward-word"),
   (Nat.lor keyRight keyAlt, "forward-word"),
   (Nat.lor 92 keyAlt, "delete-horizontal-space"),
   (Nat.lor 98 keyAlt, "backward-word"),
   (Nat.lor 66 keyAlt, "backward-word"),
   (Nat.lor 100 keyAlt, "kill-word"),
   (Nat.lor 68 keyAlt, "kill-word"),
   (Nat.lor 102 keyAlt, "forward-word"),
   (Nat.lor 70 keyAlt, "forward-word"),
   (Nat.lor 116 keyAlt, "transpose-words"),
   (Nat.lor 84 keyAlt, "transpose-words"),
   (Nat.lor 121 keyAlt, "yank-pop"),
   (Nat.lor 89 keyAlt, "yank-pop")]

/-- `screen.Flush(w)`: hand the buffered bytes to the writer and clear
the buffer. -/
def Screen.Flush (s : Screen) : Screen × List Nat := ({ s with outbuf := [] }, s.outbuf)

/-- `Prompt.dispatchKeyLocked(key)` (src/prompt.go:219-244): look the key
up in the bindings (an unbound key means `insert-char`), then offer the
command to the kill ring, then the history, then the base commands —
there is no completion stage. -/
def dispatchKeyLocked (T : GoTables) (R : RenderModel) (bindings : List (Nat × String))
    (st : State) (key : Nat) : State × Option IOErr :=
  let cmd0 := (bindings.lookup key).getD ""
  let cmd := if cmd0 = "" then "insert-char" else cmd0
  let (st1, ok1, err1) := KillRing.Dispatch T R st cmd key
  if err1.isSome then (st1, err1)
  else if ok1 then (st1, none)
  else
    let (st2, ok2, err2) := History.Dispatch T R st1 cmd key
    if err2.isSome then (st2, err2)
    else if ok2 then (st2, none)
    else
      match baseCommands.lookup cmd with
      | some fn =>
        let (st3, _ok3, err3) := fn T R st2 key
        (st3, err3)
      | none => (st2, none)


theorem stripEsc_len : ∀ buf : List Nat, (stripEsc buf).2.length ≤ buf.length := by
  intro buf
  induction buf with
  | nil => simp [stripEsc]
  | cons b0 t ih =>
    cases t with
    | nil => simp [stripEsc]
    | cons b1 rest =>
      unfold stripEsc
      split_ifs with hc
      · change (stripEsc (b1 :: rest)).2.length ≤ rest.length + 1 + 1
        simp only [List.length_cons] at ih
        omega
      · simp

theorem matchGo_shrinks : ∀ (buf : List Nat) (t : SeqTrie) (orig : List Nat) (mods : Nat),
    (t.matchGo buf orig mods).1 ≠ runeError →
    (t.matchGo buf orig mods).2.length < buf.length := by
  intro buf
  induction buf with
  | nil =>
    intro t orig mods h
    exact absurd rfl h
  | cons b rest ih =>
    intro t orig mods h
    unfold SeqTrie.matchGo at h ⊢
    cases hf : t.findChild b with
    | none =>
      simp only [hf] at h ⊢
      split_ifs at h ⊢ with hterm
      · simp
      · exact absurd rfl h
    | some c =>
      simp only [hf] at h ⊢
      split_ifs at h ⊢ with hleaf
      all_goals
        first
          | (simp only [List.length_cons]; omega)
          | (have hrec := ih c orig mods h
             simp only [List.length_cons]
             omega)

/-- A key other than RuneError always comes with strictly fewer
remaining bytes: the loop of `processInputLocked` terminates. -/
theorem parseKey_progress (buf : List Nat) (h : (parseKey buf).1 ≠ runeError) :
    (parseKey buf).2.length < buf.length := by
  unfold parseKey at h ⊢
  cases hs : stripEsc buf with
  | mk mods core =>
    simp only [hs] at h ⊢
    cases core with
    | nil => exact absurd rfl h
    | cons b rest =>
      have hlen : (b :: rest).length ≤ buf.length := by
        have h2 := stripEsc_len buf
        rw [hs] at h2
        exact h2
      simp only at h ⊢
      split_ifs at h ⊢ with hb hfull
      · exact absurd rfl h
      · have hsz := decodeRune_size_pos b rest
        simp only [List.length_drop]
        simp only [List.length_cons] at hlen hsz ⊢
        omega
      · have := matchGo_shrinks (b :: rest) seqMatcher buf mods h
        omega

/-- The `for err == nil` key loop of `Prompt.processInputLocked`
(src/prompt.go:174-186), written with explicit projections of
`parseKey`'s result.  It stops with the unconsumed bytes when the
decoder needs more input, or with the first dispatch error. -/
def processLoop (T : GoTables) (R : RenderModel) (bindings : List (Nat × String))
    (st : State) (inBytes : List Nat) : State × List Nat × Option IOErr :=
  if h : (parseKey inBytes).1 = runeError then (st, (parseKey inBytes).2, none)
  else
    match dispatchKeyLocked T R bindings st (parseKey inBytes).1 with
    | (st1, none) => processLoop T R bindings st1 (parseKey inBytes).2
    | (st1, some e) => (st1, (parseKey inBytes).2, some e)
termination_by inBytes.length
decreasing_by exact parseKey_progress inBytes h

/-- `Prompt.processInputLocked` (src/prompt.go:174-200): run the key
loop, flush the screen buffer, and on `io.EOF` with a non-empty input
add the text to the history and return it with a nil error; an empty
input propagates the EOF.  The result is (state, remaining input bytes,
flushed output, (returned text, returned error)). -/
def processInputLocked (T : GoTables) (R : RenderModel) (bindings : List (Nat × String))
    (st : State) (inBytes : List Nat) :
    State × List Nat × List Nat × (List Nat × Option IOErr) :=
  match processLoop T R bindings st inBytes with
  | (st1, rest, none) =>
    let (scr, fl) := st1.screen.Flush
    ({ st1 with screen := scr }, rest, fl, ([], none))
  | (st1, rest, some .eof) =>
    let (scr, fl) := st1.screen.Flush
    let st2 := { st1 with screen := scr }
    let text := st2.screen.Text
    if 0 < text.length then
      ({ st2 with history := st2.history.Add (utf8Str text) }, rest, fl,
        (utf8Str text, none))
    else (st2, rest, fl, ([], some .eof))


/-- C9 (confirmed). `cmdFinishOrEnter` writes CRLF to the screen's
output buffer and signals end-of-input (`io.EOF`) exactly when the
host-provided `inputFinished` callback is absent or returns true on the
current input text; otherwise it inserts a newline into the input and
returns no error. -/
theorem cmdFinishOrEnter_spec (T : GoTables) (R : RenderModel) (st : State) (key : Nat) :
    ((st.inputFinished = none ∨
        ∃ f, st.inputFinished = some f ∧ f (utf8Str st.screen.Text) = true) →
      cmdFinishOrEnterFn T R st key =
        ({ st with screen := { st.screen with outbuf := st.screen.outbuf ++ crlf } },
          true, some .eof)) ∧
    (∀ f, st.inputFinished = some f → f (utf8Str st.screen.Text) = false →
      cmdFinishOrEnterFn T R st key =
        ({ st with screen := st.screen.Insert R [10] }, true, none)) := by
  constructor
  · intro hc
    have hcond : (match st.inputFinished with
        | none => true
        | some f => f (utf8Str st.screen.Text)) = true := by
      rcases hc with hn | ⟨f, hf, ht⟩
      · rw [hn]
      · rw [hf]; exact ht
    unfold cmdFinishOrEnterFn
    rw [if_pos hcond]
  · intro f hf hff
    have hcond : (match st.inputFinished with
        | none => true
        | some f => f (utf8Str st.screen.Text)) = false := by
      rw [hf]; exact hff
    unfold cmdFinishOrEnterFn
    rw [if_neg (by simp [hcond])]

/-- C9 witness: with no `inputFinished` callback, finish-or-enter on the
concrete demo state emits CRLF and signals EOF. -/
theorem cmdFinishOrEnter_spec_witness :
    cmdFinishOrEnterFn noTables silentRender demoState 13 =
      ({ demoState with screen :=
          { demoState.screen with outbuf := demoState.screen.outbuf ++ crlf } },
        true, some .eof) :=
  (cmdFinishOrEnter_spec noTables silentRender demoState 13).1 (Or.inl rfl)

/-- C1 (code bug). The driver's dispatch chain (`dispatchKeyLocked`)
consults only the kill ring, the history and the base commands: no
dispatcher handles a completion command — `"complete"` appears in none
of the command maps, no key (in particular not Tab, 0x09) is bound to
any completion command, and `state` has no completer, so the
completion stage of the spec does not exist in the code. -/
theorem dispatch_no_completion_stage :
    (killCommands.lookup "complete").isNone = true ∧
    (yankCommands.lookup "complete").isNone = true ∧
    (historyCommands.lookup "complete").isNone = true ∧
    (baseCommands.lookup "complete").isNone = true ∧
    (defaultBindingsMap.lookup 9).isNone = true ∧
    (defaultBindingsMap.all (fun p => ! (p.2 == "complete"))) = true := by decide

/-- The state after the kill-ring dispatcher declines a command that is
neither kill nor yank: both latches cleared. -/
def clearLatches (st : State) : State :=
  { st with killRing := { st.killRing with killing := false, yanking := false } }

/-- The state after `cmdFinishOrEnter` wrote CRLF to the screen buffer. -/
def appendCrlf (st : State) : State :=
  { st with screen := { st.screen with outbuf := st.screen.outbuf ++ crlf } }

/-- The state after `screen.Flush` discarded the output buffer. -/
def withFlushedScreen (st : State) : State :=
  { st with screen := { st.screen with outbuf := ([] : List Nat) } }

theorem processInputLocked_eof (T : GoTables) (R : RenderModel)
    (bindings : List (Nat × String)) (st : State) (inBytes rest : List Nat) (st1 : State)
    (hl : processLoop T R bindings st inBytes = (st1, rest, some .eof)) :
    processInputLocked T R bindings st inBytes =
      (if 0 < st1.screen.Text.length then
        ({ withFlushedScreen st1 with
            history := st1.history.Add (utf8Str st1.screen.Text) }, rest,
          st1.screen.outbuf, (utf8Str st1.screen.Text, none))
      else (withFlushedScreen st1, rest, st1.screen.outbuf, ([], some .eof))) := by
  unfold processInputLocked
  rw [hl]
  rfl

/-- C10 (confirmed). With no active history search and no
`inputFinished` callback: pressing Enter (byte 13) on an EMPTY input
makes `processInputLocked` return `("", io.EOF)` — the same
(text, error) result as Ctrl-C (byte 3, `cancel`) — and leaves the
history unchanged; pressing Enter on a NON-EMPTY input returns the
input text with a nil error and adds it to the history. -/
theorem readLine_finishOrEnter (T : GoTables) (R : RenderModel) (st : State)
    (hsd : st.history.searchDir = 0) (hif : st.inputFinished = none) :
    (st.screen.Text.length = 0 →
      (processInputLocked T R defaultBindingsMap st [13]).2.2.2 = ([], some .eof) ∧
      (processInputLocked T R defaultBindingsMap st [13]).1.history = st.history ∧
      (processInputLocked T R defaultBindingsMap st [13]).2.2.2 =
        (processInputLocked T R defaultBindingsMap st [3]).2.2.2) ∧
    (0 < st.screen.Text.length →
      (processInputLocked T R defaultBindingsMap st [13]).2.2.2 =
        (utf8Str st.screen.Text, none) ∧
      (processInputLocked T R defaultBindingsMap st [13]).1.history =
        st.history.Add (utf8Str st.screen.Text)) := by
  have hdisp13 : dispatchKeyLocked T R defaultBindingsMap st 13 =
      (appendCrlf (clearLatches st), some .eof) := by
    unfold dispatchKeyLocked
    rw [show defaultBindingsMap.lookup 13 = some "finish-or-enter" from by decide]
    simp [KillRing.Dispatch, History.Dispatch, History.CancelSearch,
      cmdFinishOrEnterFn, clearLatches, appendCrlf, killCommands, yankCommands,
      historyCommands, baseCommands, List.lookup, hsd, hif]
  have hloop13 : processLoop T R defaultBindingsMap st [13] =
      (appendCrlf (clearLatches st), [], some .eof) := by
    rw [processLoop]
    rw [dif_neg (show ¬ (parseKey [13]).1 = runeError by decide)]
    rw [show (parseKey [13]).1 = 13 from rfl, show (parseKey [13]).2 = [] from rfl]
    rw [hdisp13]
  have htx13 : (appendCrlf (clearLatches st)).screen.Text = st.screen.Text := rfl
  constructor
  · intro hte
    have hdisp3 : dispatchKeyLocked T R defaultBindingsMap st 3 =
        (clearLatches st, some .eof) := by
      unfold dispatchKeyLocked
      rw [show defaultBindingsMap.lookup 3 = some "cancel" from by decide]
      simp [KillRing.Dispatch, History.Dispatch, History.CancelSearch,
        cmdHistCancelFn, cmdCancelFn, clearLatches, killCommands, yankCommands,
        historyCommands, baseCommands, List.lookup, hsd, hte]
    have hloop3 : processLoop T R defaultBindingsMap st [3] =
        (clearLatches st, [], some .eof) := by
      rw [processLoop]
      rw [dif_neg (show ¬ (parseKey [3]).1 = runeError by decide)]
      rw [show (parseKey [3]).1 = 3 from rfl, show (parseKey [3]).2 = [] from rfl]
      rw [hdisp3]
    rw [processInputLocked_eof T R defaultBindingsMap st [13] [] _ hloop13]
    rw [processInputLocked_eof T R defaultBindingsMap st [3] [] _ hloop3]
    rw [if_neg (by rw [htx13]; omega)]
    rw [if_neg (by rw [show (clearLatches st).screen.Text = st.screen.Text from rfl]; omega)]
    exact ⟨rfl, rfl, rfl⟩
  · intro hte
    rw [processInputLocked_eof T R defaultBindingsMap st [13] [] _ hloop13]
    rw [if_pos (by rw [htx13]; omega)]
    exact ⟨rfl, rfl⟩

/-- C10 witness: Enter on a concrete state with empty input returns
`("", io.EOF)` and leaves the history unchanged. -/
theorem readLine_finishOrEnter_witness :
    (processInputLocked noTables silentRender defaultBindingsMap
        ⟨demoHistory, demoKillRing, ⟨[62], [], [62], 1, 80, 40, []⟩, none⟩
        [13]).2.2.2 = ([], some .eof) :=
  ((readLine_finishOrEnter noTables silentRender
      ⟨demoHistory, demoKillRing, ⟨[62], [], [62], 1, 80, 40, []⟩, none⟩
      rfl rfl).1 (by decide)).1

end GoPrompt
